import Mathlib

/-!
Shallow embedding of the animation engine of `src/js/animator.js`
(class `Animator`; near-duplicate variants live in `src/unnamed/part_001`
and `src/unnamed/part_004`).

Conventions of the embedding:
* JS numbers that hold times and opacities become `ℚ`.
* An image handle is identified by its source string (the engine only
  stores and draws handles by reference; `window.imageLoader.get` is the
  external lookup, modelled by a `loaded : String → Bool` parameter).
* A JS object used as a string-keyed dictionary becomes an association
  list `List (String × β)`; property read is `lookupA`, property
  assignment is `setA`.
* `Math.floor(Math.random() * n)` (a uniform index `< n`) is modelled by
  `k % n` for an arbitrary caller-chosen `k : ℕ`.
* Code paths that throw a `TypeError` (property access on `undefined`)
  are modelled by returning `none`; operations that cannot throw stay
  total.
* Observer callbacks (`onStatusUpdate`, `onTransitionComplete`) become
  an event list / counter in the state, so that "the callback fired" is
  a statable fact.
-/

-- Concrete runs of the engine are settled by `decide`, which has to
-- evaluate rational arithmetic; restore default unfolding for the
-- Batteries rational primitives within this file so that evaluation can
-- proceed (this only affects elaboration-time transparency, not the
-- kernel or any axiom).
set_option allowUnsafeReducibility true
attribute [local semireducible] Rat.inv Rat.mul Rat.add Rat.sub Rat.ofScientific

namespace Art8

/-- JS object property read: first entry with the key, if any. -/
def lookupA {β : Type} : List (String × β) → String → Option β
  | [], _ => none
  | (k, v) :: rest, key => if k = key then some v else lookupA rest key

/-- Whether the key is present. -/
def hasKey {β : Type} (l : List (String × β)) (key : String) : Bool :=
  (lookupA l key).isSome

/-- JS object property assignment: replace the value when the key is
present (all entries with the key stay in sync, matching the single slot
of a JS object), append otherwise. -/
def setA {β : Type} (l : List (String × β)) (key : String) (v : β) :
    List (String × β) :=
  if hasKey l key then l.map (fun p => if p.1 = key then (key, v) else p)
  else l ++ [(key, v)]

/-- Per-category zone layer (`this.zones[color]`): the settled image, the
image being faded in, and the fade progress of the incoming image. -/
structure Zone where
  current : Option String
  incoming : Option String
  alpha : ℚ
deriving DecidableEq, Repr

/-- The `IDLE | FADING | HOLDING` state machine tag. -/
inductive MachineState where
  | IDLE
  | FADING
  | HOLDING
deriving DecidableEq, Repr

/-- The mutable fields of the `Animator` instance (rendering context and
platform listeners excluded; FPS bookkeeping kept where operations touch
it). `statusEvents` records each `onStatusUpdate({color, set})` call and
`tcFires` counts `onTransitionComplete()` calls. -/
@[ext] structure AnimState where
  running : Bool
  paused : Bool
  animationId : Option ℕ
  lastTime : ℚ
  lastFrameTime : ℚ
  fpsTime : ℚ
  frameCount : ℕ
  fadeDuration : ℚ
  holdDuration : ℚ
  prefersReducedMotion : Bool
  state : MachineState
  stateTime : ℚ
  imagesByColor : List (String × List String)
  categories : List String
  frameImage : Option String
  backgroundImage : Option String
  zones : List (String × Zone)
  currentZoneIndex : ℕ
  currentSet : ℕ
  usedImages : List (String × List String)
  transitioningOut : Bool
  transitionAlpha : ℚ
  statusEvents : List (String × ℕ)
  tcFires : ℕ
deriving DecidableEq, Repr

/-- The constructor's initial field values (`prm` is what the
`prefers-reduced-motion` media query reports). -/
def initState (prm : Bool) : AnimState where
  running := false
  paused := false
  animationId := none
  lastTime := 0
  lastFrameTime := 0
  fpsTime := 0
  frameCount := 0
  fadeDuration := 17/10
  holdDuration := 17/10
  prefersReducedMotion := prm
  state := .IDLE
  stateTime := 0
  imagesByColor := []
  categories := []
  frameImage := none
  backgroundImage := none
  zones := []
  currentZoneIndex := 0
  currentSet := 0
  usedImages := []
  transitioningOut := false
  transitionAlpha := 1
  statusEvents := []
  tcFires := 0

/-- `easeInOutCubic(t)`. -/
def easeInOutCubic (t : ℚ) : ℚ :=
  if t < 1/2 then 4 * t * t * t else 1 - (-2 * t + 2)^3 / 2

/-- The image list configured for a color
(`this.imagesByColor[color] || []`). -/
def imagesOf (s : AnimState) (color : String) : List String :=
  (lookupA s.imagesByColor color).getD []

/-- `reset()`: cursor, state machine, transition state back to initial
values; clear every used-image set and every zone listed in
`categories` (the loops guard on presence, so entries outside
`categories` are untouched). -/
def reset (s : AnimState) : AnimState :=
  { s with
    currentZoneIndex := 0
    currentSet := 0
    state := .IDLE
    stateTime := 0
    transitioningOut := false
    transitionAlpha := 1
    usedImages := s.usedImages.map
      (fun p => if s.categories.contains p.1 then (p.1, []) else p)
    zones := s.zones.map
      (fun p => if s.categories.contains p.1 then (p.1, ⟨none, none, 0⟩) else p) }

/-- `setImages(imagesByColor, categories)`: install the pool, build fresh
used-sets and zones for each category, then `reset()`. -/
def setImages (imgs : List (String × List String)) (cats : List String)
    (s : AnimState) : AnimState :=
  reset { s with
    imagesByColor := imgs
    categories := cats
    usedImages := cats.map (fun c => (c, []))
    zones := cats.map (fun c => (c, ⟨none, none, 0⟩)) }

/-- `setFrame(frameImage)`. -/
def setFrame (f : Option String) (s : AnimState) : AnimState :=
  { s with frameImage := f }

/-- `setBackground(backgroundImage)`. -/
def setBackground (b : Option String) (s : AnimState) : AnimState :=
  { s with backgroundImage := b }

/-- `getRandomImage(color)`. Returns `none` when the JS code would throw
(`this.usedImages[color].add(src)` with the key absent); otherwise
`some (result, state)` where `result` is the returned source or `null`.
`k` models the random draw: the picked index is `k % available.length`. -/
def getRandomImage (k : ℕ) (s : AnimState) (color : String) :
    Option (Option String × AnimState) :=
  let images := imagesOf s color
  if images.isEmpty then some (none, s)
  else
    let used := (lookupA s.usedImages color).getD []
    let available := images.filter (fun src => !used.contains src)
    if available.isEmpty then
      -- all images already shown: clear the used set, draw from the full list
      let s1 := { s with usedImages := setA s.usedImages color [] }
      let src := images.getD (k % images.length) ""
      some (some src, { s1 with usedImages := setA s1.usedImages color [src] })
    else
      match lookupA s.usedImages color with
      | none => none
      | some u =>
        let src := available.getD (k % available.length) ""
        some (some src, { s with usedImages := setA s.usedImages color (u ++ [src]) })

/-- `startZoneFade()`: pick a random image for the active category and
install it as that zone's `incoming` with alpha `0`, emitting a status
event; returns `false` (with a console warning) when the category has no
images or the handle is not loaded. `none` models a thrown `TypeError`. -/
def startZoneFade (k : ℕ) (loaded : String → Bool) (s : AnimState) :
    Option (Bool × AnimState) :=
  match s.categories.get? s.currentZoneIndex with
  | none =>
    -- categories[idx] is undefined: imagesByColor[undefined] || [] is empty,
    -- so getRandomImage returns null and the method warns and returns false
    some (false, s)
  | some color =>
    match getRandomImage k s color with
    | none => none
    | some (none, s1) => some (false, s1)
    | some (some src, s1) =>
      if loaded src then
        match lookupA s1.zones color with
        | none => none
        | some z =>
          let s2 := { s1 with
            zones := setA s1.zones color { z with incoming := some src, alpha := 0 } }
          some (true, { s2 with
            statusEvents := s2.statusEvents ++ [(color, s2.currentSet + 1)] })
      else some (false, s1)

/-- `completeZoneFade()`: promote the active zone's `incoming` to
`current`, clear `incoming`, reset `alpha`. `none` models the thrown
`TypeError` when `this.zones[color]` is undefined. -/
def completeZoneFade (s : AnimState) : Option AnimState :=
  match s.categories.get? s.currentZoneIndex with
  | none => none
  | some color =>
    match lookupA s.zones color with
    | none => none
    | some z =>
      some { s with zones := setA s.zones color ⟨z.incoming, none, 0⟩ }

/-- `advanceToNextZone()`. -/
def advanceToNextZone (s : AnimState) : AnimState :=
  let idx := s.currentZoneIndex + 1
  if idx ≥ s.categories.length then
    let set1 := s.currentSet + 1
    { s with currentZoneIndex := 0
             currentSet := if set1 ≥ 1000 then 0 else set1 }
  else { s with currentZoneIndex := idx }

/-- `start()`: no-op when already running; otherwise arm the clock,
start the first zone fade and enter `FADING`. The first `loop()` call
finds `elapsed = 0` below the frame interval, so it only re-arms the
frame callback (handle modelled by `rafId`). -/
def start (now : ℚ) (rafId : ℕ) (k : ℕ) (loaded : String → Bool)
    (s : AnimState) : Option AnimState :=
  if s.running then some s
  else
    let s1 := { s with
      running := true, paused := false
      lastTime := now, lastFrameTime := now, fpsTime := now, frameCount := 0 }
    match startZoneFade k loaded s1 with
    | none => none
    | some (_, s2) =>
      some { s2 with state := .FADING, stateTime := 0, animationId := some rafId }

/-- `stop()`. -/
def stop (s : AnimState) : AnimState :=
  { s with running := false, paused := false, animationId := none }

/-- `pause()` (visibility loss). -/
def pause (s : AnimState) : AnimState :=
  if !s.running then s
  else { s with paused := true, animationId := none }

/-- `resume()` (visibility regained): resample the clock baseline and
re-arm the frame callback. -/
def resume (now : ℚ) (rafId : ℕ) (s : AnimState) : AnimState :=
  if !s.running || !s.paused then s
  else { s with paused := false, lastTime := now, lastFrameTime := now,
                animationId := some rafId }

/-- `beginTransition()`. -/
def beginTransition (s : AnimState) : AnimState :=
  { s with transitioningOut := true, transitionAlpha := 1 }

/-- The `effectiveFadeDuration` local computed at the top of
`update(deltaTime)`: the reduced-motion preference substitutes a short
fixed fade of `0.1` seconds for `fadeDuration`. -/
def effFade (s : AnimState) : ℚ :=
  if s.prefersReducedMotion then 1/10 else s.fadeDuration

/-- The fade-in half of the style-transition handling in `update`: when
not transitioning out and the global alpha is below 1, ramp it back up,
clamped at 1. -/
def transitionFadeIn (s : AnimState) (dt : ℚ) : AnimState :=
  if s.transitionAlpha < 1 then
    let a := s.transitionAlpha + dt / effFade s
    { s with transitionAlpha := if a > 1 then 1 else a }
  else s

/-- The zone-alpha write of the `FADING` case of `update`: when the
active zone exists and has an incoming image, set its alpha to the eased
(or, under reduced motion, linear) fade progress. -/
def fadeAlphaStep (s : AnimState) (eff : ℚ) : AnimState :=
  match s.categories.get? s.currentZoneIndex with
  | none => s
  | some color =>
    match lookupA s.zones color with
    | none => s
    | some z =>
      if z.incoming.isSome then
        let progress := min (s.stateTime / eff) 1
        let a := if s.prefersReducedMotion then progress
                 else easeInOutCubic progress
        { s with zones := setA s.zones color { z with alpha := a } }
      else s

/-- `update(deltaTime)`. `none` models a thrown `TypeError`
(`completeZoneFade` or `startZoneFade` dereferencing `undefined`). -/
def update (k : ℕ) (loaded : String → Bool) (s : AnimState) (dt : ℚ) :
    Option AnimState :=
  if s.transitioningOut then
    let a := s.transitionAlpha - dt / effFade s
    if a ≤ 0 then
      some { s with transitionAlpha := 0, transitioningOut := false,
                    tcFires := s.tcFires + 1 }
    else some { s with transitionAlpha := a }
  else
    let s1 := transitionFadeIn s dt
    let s2 := { s1 with stateTime := s1.stateTime + dt }
    match s2.state with
    | .IDLE => some s2
    | .FADING =>
      let s3 := fadeAlphaStep s2 (effFade s)
      if s3.stateTime ≥ effFade s then
        match completeZoneFade s3 with
        | none => none
        | some s4 => some { s4 with state := .HOLDING, stateTime := 0 }
      else some s3
    | .HOLDING =>
      if s2.stateTime ≥ s2.holdDuration then
        let s3 := advanceToNextZone s2
        match startZoneFade k loaded s3 with
        | none => none
        | some (_, s4) => some { s4 with state := .FADING, stateTime := 0 }
      else some s2

/-- One canvas drawing command of the render pass (geometry is the
uniform fit-and-center placement, identical for every draw; the claims
are about order and opacity, so a draw records the handle and the
effective `globalAlpha`). -/
inductive DrawCmd where
  | clear
  | draw (img : String) (alpha : ℚ)
deriving DecidableEq, Repr

/-- `drawImage(img, alpha)`: skipped for a missing handle or a
near-zero alpha; otherwise draws with `globalAlpha = alpha *
transitionAlpha`. -/
def drawImage (s : AnimState) (img : Option String) (alpha : ℚ) :
    List DrawCmd :=
  match img with
  | none => []
  | some i =>
    if alpha < 1/1000 then []
    else [DrawCmd.draw i (alpha * s.transitionAlpha)]

/-- `render()`: clear, background, each zone's `current` then gated
`incoming` in category order, frame overlay. -/
def render (s : AnimState) : List DrawCmd :=
  [DrawCmd.clear]
  ++ (match s.backgroundImage with
      | none => []
      | some bg => drawImage s (some bg) 1)
  ++ (s.categories.flatMap fun color =>
      match lookupA s.zones color with
      | none => []
      | some z =>
        (match z.current with
         | none => []
         | some c => drawImage s (some c) 1)
        ++ (match z.incoming with
            | none => []
            | some inc => if z.alpha > 1/1000 then drawImage s (some inc) z.alpha
                          else []))
  ++ (match s.frameImage with
      | none => []
      | some f => drawImage s (some f) 1)

/-! ### Association-list helper lemmas -/

theorem lookupA_isSome_iff {β : Type} (l : List (String × β)) (key : String) :
    (lookupA l key).isSome ↔ key ∈ l.map Prod.fst := by
  induction l with
  | nil => simp [lookupA]
  | cons p rest ih =>
    obtain ⟨k, v⟩ := p
    by_cases h : k = key
    · subst h; simp [lookupA]
    · simp only [lookupA, if_neg h, List.map_cons, List.mem_cons, ih]
      constructor
      · intro hm; exact Or.inr hm
      · rintro (hm | hm)
        · exact absurd hm.symm h
        · exact hm

theorem lookupA_mem {β : Type} {l : List (String × β)} {key : String} {v : β}
    (h : lookupA l key = some v) : (key, v) ∈ l := by
  induction l with
  | nil => simp [lookupA] at h
  | cons p rest ih =>
    obtain ⟨k, w⟩ := p
    by_cases hk : k = key
    · simp [lookupA, hk] at h
      simp [hk, h]
    · simp [lookupA, hk] at h
      simp [ih h]

theorem lookupA_append_left {β : Type} {l : List (String × β)} (m : List (String × β))
    {key : String} (h : lookupA l key = none) :
    lookupA (l ++ m) key = lookupA m key := by
  induction l with
  | nil => simp
  | cons p rest ih =>
    obtain ⟨k, w⟩ := p
    by_cases hk : k = key
    · simp [lookupA, hk] at h
    · simp [lookupA, hk] at h ⊢
      exact ih h

theorem lookupA_map_replace {β : Type} {l : List (String × β)} {key : String}
    (v : β) (h : (lookupA l key).isSome) :
    lookupA (l.map (fun p => if p.1 = key then (key, v) else p)) key = some v := by
  induction l with
  | nil => simp [lookupA] at h
  | cons p rest ih =>
    obtain ⟨k, w⟩ := p
    by_cases hk : k = key
    · subst hk
      simp only [List.map_cons]
      simp [lookupA]
    · simp only [lookupA, if_neg hk] at h
      simp only [List.map_cons]
      rw [show (if ((k, w) : String × β).1 = key then (key, v) else (k, w)) = (k, w) from by
        simp [hk]]
      simp only [lookupA, if_neg hk]
      exact ih h

theorem lookupA_setA_self {β : Type} (l : List (String × β)) (key : String) (v : β) :
    lookupA (setA l key v) key = some v := by
  unfold setA
  by_cases h : hasKey l key
  · rw [if_pos h]
    exact lookupA_map_replace v h
  · rw [if_neg h]
    have hn : lookupA l key = none := by
      unfold hasKey at h
      exact Option.not_isSome_iff_eq_none.mp h
    rw [lookupA_append_left _ hn]
    simp [lookupA]

theorem setA_keys {β : Type} (l : List (String × β)) (key : String) (v : β)
    (h : hasKey l key = true) :
    (setA l key v).map Prod.fst = l.map Prod.fst := by
  unfold setA
  rw [if_pos h, List.map_map]
  apply List.map_congr_left
  intro p _
  by_cases hk : p.1 = key <;> simp [hk]

theorem mem_setA {β : Type} {l : List (String × β)} {key : String} {v : β}
    {p : String × β} (hp : p ∈ setA l key v) :
    p = (key, v) ∨ (p ∈ l ∧ p.1 ≠ key) := by
  unfold setA at hp
  split at hp
  · obtain ⟨q, hq, rfl⟩ := List.mem_map.mp hp
    by_cases hk : q.1 = key
    · left; simp [hk]
    · right; simp only [if_neg hk]; exact ⟨hq, hk⟩
  · rename_i hnk
    rcases List.mem_append.mp hp with h | h
    · right
      refine ⟨h, fun he => ?_⟩
      have : key ∈ l.map Prod.fst := he ▸ List.mem_map_of_mem Prod.fst h
      rw [← lookupA_isSome_iff] at this
      exact hnk this
    · left; simpa using h

theorem getD_mod_mem {l : List String} (h : l ≠ []) (k : ℕ) (d : String) :
    l.getD (k % l.length) d ∈ l := by
  have hlen : 0 < l.length := List.length_pos.mpr h
  have hk : k % l.length < l.length := Nat.mod_lt _ hlen
  rw [List.getD_eq_getElem l d hk]
  exact List.getElem_mem hk

/-! ### C1: the image-selection algorithm -/

/-- C1 (amended): for a category with at least one image, `getRandomImage`
always returns an image from the category's list; when the used set does
not yet cover all images, the returned image is not in the used set (so
consecutive results differ there) and is appended to it; when the used
set covers all images, it is cleared and the pick is drawn from the full
list, the new used set holding exactly the pick — so the image just shown
may immediately repeat at that exhaustion boundary even when the category
has more than one image. -/
theorem c1_selection (s : AnimState) (color : String) (k : ℕ)
    (images used : List String)
    (hi : imagesOf s color = images)
    (hu : lookupA s.usedImages color = some used)
    (hne : images ≠ []) :
    ∃ src s', getRandomImage k s color = some (some src, s') ∧ src ∈ images ∧
      (images.filter (fun i => !used.contains i) ≠ [] →
        src ∉ used ∧ lookupA s'.usedImages color = some (used ++ [src])) ∧
      (images.filter (fun i => !used.contains i) = [] →
        lookupA s'.usedImages color = some [src]) := by
  unfold getRandomImage
  simp only [hi, hu, Option.getD_some]
  rw [if_neg (by simpa [List.isEmpty_iff] using hne)]
  by_cases hav : (images.filter (fun i => !used.contains i)).isEmpty
  · rw [if_pos hav]
    refine ⟨images.getD (k % images.length) "", _, rfl, getD_mod_mem hne k "", ?_, ?_⟩
    · intro hcon
      exact absurd (List.isEmpty_iff.mp hav) hcon
    · intro _
      exact lookupA_setA_self _ color _
  · rw [if_neg hav]
    have havne : images.filter (fun i => !used.contains i) ≠ [] := by
      simpa [List.isEmpty_iff] using hav
    set available := images.filter (fun i => !used.contains i) with hdef
    have hsrc : available.getD (k % available.length) "" ∈ available :=
      getD_mod_mem havne k ""
    have hmem := List.mem_filter.mp hsrc
    refine ⟨available.getD (k % available.length) "", _, rfl, hmem.1, ?_, ?_⟩
    · intro _
      refine ⟨?_, lookupA_setA_self _ color _⟩
      intro hin
      have hnc := hmem.2
      simp only [Bool.not_eq_true'] at hnc
      rw [show (available.getD (k % available.length) "" ∈ used) =
        (used.contains (available.getD (k % available.length) "") = true) from by simp] at hin
      rw [hnc] at hin
      exact Bool.false_ne_true hin
    · intro hcon
      exact absurd hcon havne

/-- C1 witness: `c1_selection` applied to a fresh two-image category. -/
theorem c1_selection_witness :
    ∃ src s',
      getRandomImage 0 (setImages [("red", ["a", "b"])] ["red"] (initState false)) "red"
        = some (some src, s') ∧ src ∈ ["a", "b"] ∧
      ((["a", "b"] : List String).filter (fun i => !(([] : List String).contains i)) ≠ [] →
        src ∉ ([] : List String) ∧
        lookupA s'.usedImages "red" = some (([] : List String) ++ [src])) ∧
      ((["a", "b"] : List String).filter (fun i => !(([] : List String).contains i)) = [] →
        lookupA s'.usedImages "red" = some [src]) :=
  c1_selection (setImages [("red", ["a", "b"])] ["red"] (initState false)) "red" 0
    ["a", "b"] [] (by decide) (by decide) (by decide)

/-- C1 counterexample to the claim as stated: a category with two images
("a", "b") where two consecutive calls to `getRandomImage` both return
"b" — the second call hits exhaustion, clears the used set, and re-picks
the image that was just shown. -/
theorem c1_counterexample :
    ((getRandomImage 0 (setImages [("red", ["a", "b"])] ["red"] (initState false)) "red").bind
      (fun r1 => (getRandomImage 1 r1.2 "red").bind
        (fun r2 => (getRandomImage 1 r2.2 "red").map
          (fun r3 => (r1.1, r2.1, r3.1)))))
      = some (some "a", some "b", some "b") ∧
    (imagesOf (setImages [("red", ["a", "b"])] ["red"] (initState false)) "red").length = 2 := by
  exact ⟨by decide, by decide⟩

/-! ### C9: idempotence of stop / reset / start -/

theorem map_clear_idem {β : Type} (cats : List String) (d : β)
    (l : List (String × β)) :
    (l.map (fun p => if cats.contains p.1 then (p.1, d) else p)).map
      (fun p => if cats.contains p.1 then (p.1, d) else p)
    = l.map (fun p => if cats.contains p.1 then (p.1, d) else p) := by
  rw [List.map_map]
  apply List.map_congr_left
  intro p _
  simp only [Function.comp]
  by_cases h : p.1 ∈ cats <;> simp [h]

/-- C9: a second `stop()` changes nothing, `reset()` on an already-reset
engine changes nothing, and `start()` while already running is the
identity (it returns before touching any field). -/
theorem c9_idempotence (s : AnimState) (now : ℚ) (rafId k : ℕ)
    (loaded : String → Bool) (hr : s.running = true) :
    stop (stop s) = stop s ∧ reset (reset s) = reset s ∧
    start now rafId k loaded s = some s := by
  refine ⟨rfl, ?_, by simp [start, hr]⟩
  show reset (reset s) = reset s
  unfold reset
  simp only [AnimState.mk.injEq, map_clear_idem, and_self, and_true, true_and]

/-- C9 witness. -/
theorem c9_idempotence_witness :
    stop (stop { initState false with running := true })
        = stop { initState false with running := true } ∧
      reset (reset { initState false with running := true })
        = reset { initState false with running := true } ∧
      start 0 0 0 (fun _ => true) { initState false with running := true }
        = some { initState false with running := true } :=
  c9_idempotence { initState false with running := true } 0 0 0 (fun _ => true) rfl

/-! ### C7: the render pass -/

/-- Modelled from the claim wording of C7 (the compositor's draw order):
clear first; background (if present) at full opacity times transition
alpha; for each category in declared order its `current` at full opacity
times transition alpha, then its `incoming` at `alpha` times transition
alpha only when `alpha` exceeds `0.001`; frame overlay (if present) last. -/
def renderClaimSpec (s : AnimState) : List DrawCmd :=
  [DrawCmd.clear]
  ++ (match s.backgroundImage with
      | none => []
      | some bg => [DrawCmd.draw bg (1 * s.transitionAlpha)])
  ++ (s.categories.flatMap fun color =>
      match lookupA s.zones color with
      | none => []
      | some z =>
        (match z.current with
         | none => []
         | some c => [DrawCmd.draw c (1 * s.transitionAlpha)])
        ++ (match z.incoming with
            | none => []
            | some inc => if z.alpha > 1/1000
                          then [DrawCmd.draw inc (z.alpha * s.transitionAlpha)]
                          else []))
  ++ (match s.frameImage with
      | none => []
      | some f => [DrawCmd.draw f (1 * s.transitionAlpha)])

theorem drawImage_one (s : AnimState) (i : String) :
    drawImage s (some i) 1 = [DrawCmd.draw i (1 * s.transitionAlpha)] := by
  simp only [drawImage]
  rw [if_neg (by norm_num)]

theorem drawImage_big (s : AnimState) (i : String) (a : ℚ) (h : 1/1000 < a) :
    drawImage s (some i) a = [DrawCmd.draw i (a * s.transitionAlpha)] := by
  simp only [drawImage]
  rw [if_neg (by linarith)]

/-- C7: `render()` produces exactly the draw sequence the claim
describes — clear, then background, then per category `current` followed
by the epsilon-gated `incoming`, then the frame overlay. -/
theorem c7_render (s : AnimState) : render s = renderClaimSpec s := by
  unfold render renderClaimSpec
  have hbg : (match s.backgroundImage with
      | none => ([] : List DrawCmd)
      | some bg => drawImage s (some bg) 1)
      = (match s.backgroundImage with
        | none => []
        | some bg => [DrawCmd.draw bg (1 * s.transitionAlpha)]) := by
    cases s.backgroundImage <;> simp [drawImage_one]
  have hfr : (match s.frameImage with
      | none => ([] : List DrawCmd)
      | some f => drawImage s (some f) 1)
      = (match s.frameImage with
        | none => []
        | some f => [DrawCmd.draw f (1 * s.transitionAlpha)]) := by
    cases s.frameImage <;> simp [drawImage_one]
  have hz : ∀ color,
      (match lookupA s.zones color with
       | none => ([] : List DrawCmd)
       | some z =>
         (match z.current with
          | none => []
          | some c => drawImage s (some c) 1)
         ++ (match z.incoming with
             | none => []
             | some inc => if z.alpha > 1/1000 then drawImage s (some inc) z.alpha
                           else []))
      = (match lookupA s.zones color with
         | none => []
         | some z =>
           (match z.current with
            | none => []
            | some c => [DrawCmd.draw c (1 * s.transitionAlpha)])
           ++ (match z.incoming with
               | none => []
               | some inc => if z.alpha > 1/1000
                             then [DrawCmd.draw inc (z.alpha * s.transitionAlpha)]
                             else [])) := by
    intro color
    cases hzl : lookupA s.zones color with
    | none => rfl
    | some z =>
      dsimp only
      have hcur : (match z.current with
          | none => ([] : List DrawCmd)
          | some c => drawImage s (some c) 1)
          = (match z.current with
            | none => []
            | some c => [DrawCmd.draw c (1 * s.transitionAlpha)]) := by
        cases z.current <;> simp [drawImage_one]
      have hinc : (match z.incoming with
          | none => ([] : List DrawCmd)
          | some inc => if z.alpha > 1/1000 then drawImage s (some inc) z.alpha
                        else [])
          = (match z.incoming with
            | none => []
            | some inc => if z.alpha > 1/1000
                          then [DrawCmd.draw inc (z.alpha * s.transitionAlpha)]
                          else []) := by
        cases z.incoming with
        | none => rfl
        | some inc =>
          dsimp only
          by_cases ha : z.alpha > 1/1000
          · rw [drawImage_big s inc z.alpha ha]
          · rw [if_neg ha, if_neg ha]
      rw [hcur, hinc]
  rw [hbg, hfr]
  have : (s.categories.flatMap fun color =>
      match lookupA s.zones color with
      | none => ([] : List DrawCmd)
      | some z =>
        (match z.current with
         | none => []
         | some c => drawImage s (some c) 1)
        ++ (match z.incoming with
            | none => []
            | some inc => if z.alpha > 1/1000 then drawImage s (some inc) z.alpha
                          else []))
      = (s.categories.flatMap fun color =>
        match lookupA s.zones color with
        | none => []
        | some z =>
          (match z.current with
           | none => []
           | some c => [DrawCmd.draw c (1 * s.transitionAlpha)])
          ++ (match z.incoming with
              | none => []
              | some inc => if z.alpha > 1/1000
                            then [DrawCmd.draw inc (z.alpha * s.transitionAlpha)]
                            else [])) := by
    exact congrArg (List.flatMap s.categories) (funext hz)
  rw [this]

/-! ### Field-preservation lemmas for the selection helpers -/

/-- `getRandomImage` only ever mutates the used-image sets. -/
theorem getRandomImage_fields {k : ℕ} {s : AnimState} {color : String}
    {res : Option String} {s' : AnimState}
    (h : getRandomImage k s color = some (res, s')) :
    ∃ u, s' = { s with usedImages := u } := by
  unfold getRandomImage at h
  simp only [] at h
  repeat' split at h
  all_goals
    first
      | exact Option.noConfusion h
      | (injection h with h
         injection h with h1 h2
         subst h2
         exact ⟨_, rfl⟩)

theorem getRandomImage_zones {k : ℕ} {s : AnimState} {color : String}
    {res : Option String} {s' : AnimState}
    (h : getRandomImage k s color = some (res, s')) : s'.zones = s.zones := by
  obtain ⟨u, rfl⟩ := getRandomImage_fields h
  rfl

theorem getRandomImage_categories {k : ℕ} {s : AnimState} {color : String}
    {res : Option String} {s' : AnimState}
    (h : getRandomImage k s color = some (res, s')) :
    s'.categories = s.categories := by
  obtain ⟨u, rfl⟩ := getRandomImage_fields h
  rfl

theorem getRandomImage_images {k : ℕ} {s : AnimState} {color : String}
    {res : Option String} {s' : AnimState}
    (h : getRandomImage k s color = some (res, s')) :
    s'.imagesByColor = s.imagesByColor := by
  obtain ⟨u, rfl⟩ := getRandomImage_fields h
  rfl

/-- `getRandomImage` throws only when the category's used set is
missing from the dictionary. -/
theorem getRandomImage_none {k : ℕ} {s : AnimState} {color : String}
    (h : getRandomImage k s color = none) :
    lookupA s.usedImages color = none := by
  unfold getRandomImage at h
  simp only [] at h
  split at h
  · exact Option.noConfusion h
  · split at h
    · exact Option.noConfusion h
    · split at h
      · rename_i heq
        exact heq
      · exact Option.noConfusion h

/-- A successful pick comes from a non-empty image list. -/
theorem getRandomImage_src {k : ℕ} {s : AnimState} {color : String}
    {src : String} {s' : AnimState}
    (h : getRandomImage k s color = some (some src, s')) :
    imagesOf s color ≠ [] ∧ src ∈ imagesOf s color := by
  unfold getRandomImage at h
  simp only [] at h
  split at h
  · injection h with h
    injection h with h1 h2
    exact Option.noConfusion h1
  · rename_i hne
    have hne' : imagesOf s color ≠ [] := by
      simpa [List.isEmpty_iff] using hne
    split at h
    · injection h with h
      injection h with h1 h2
      injection h1 with h1
      subst h1
      exact ⟨hne', getD_mod_mem hne' k ""⟩
    · rename_i hav
      split at h
      · exact Option.noConfusion h
      · injection h with h
        injection h with h1 h2
        injection h1 with h1
        subst h1
        refine ⟨hne', ?_⟩
        have hmem := getD_mod_mem (l := (imagesOf s color).filter
          (fun i => !((lookupA s.usedImages color).getD []).contains i))
          (by simpa [List.isEmpty_iff] using hav) k ""
        exact (List.mem_filter.mp hmem).1

/-- `getRandomImage` preserves the used-set keys when the category is
present. -/
theorem getRandomImage_used_keys {k : ℕ} {s : AnimState} {color : String}
    {res : Option String} {s' : AnimState}
    (h : getRandomImage k s color = some (res, s'))
    (hck : (lookupA s.usedImages color).isSome = true) :
    s'.usedImages.map Prod.fst = s.usedImages.map Prod.fst := by
  unfold getRandomImage at h
  simp only [] at h
  split at h
  · injection h with h
    injection h with h1 h2
    subst h2
    rfl
  · split at h
    · injection h with h
      injection h with h1 h2
      subst h2
      show (setA (setA s.usedImages color []) color _).map Prod.fst
        = s.usedImages.map Prod.fst
      rw [setA_keys _ color _ (by
        show (lookupA (setA s.usedImages color []) color).isSome = true
        rw [lookupA_setA_self]
        rfl)]
      rw [setA_keys _ color _ hck]
    · split at h
      · exact Option.noConfusion h
      · injection h with h
        injection h with h1 h2
        subst h2
        exact setA_keys _ color _ hck

/-- `startZoneFade` only ever mutates the used-image sets, the zones and
the status-event log. -/
theorem startZoneFade_fields {k : ℕ} {loaded : String → Bool} {s : AnimState}
    {b : Bool} {s' : AnimState}
    (h : startZoneFade k loaded s = some (b, s')) :
    ∃ u zs ev, s' = { s with usedImages := u, zones := zs, statusEvents := ev } := by
  unfold startZoneFade at h
  cases hc : s.categories.get? s.currentZoneIndex with
  | none =>
    rw [hc] at h
    injection h with h
    injection h with h1 h2
    subst h2
    exact ⟨_, _, _, rfl⟩
  | some color =>
    rw [hc] at h
    simp only [] at h
    cases hg : getRandomImage k s color with
    | none =>
      rw [hg] at h
      exact Option.noConfusion h
    | some rs =>
      obtain ⟨r, s1⟩ := rs
      rw [hg] at h
      obtain ⟨u, rfl⟩ := getRandomImage_fields hg
      cases r with
      | none =>
        injection h with h
        injection h with h1 h2
        subst h2
        exact ⟨_, _, _, rfl⟩
      | some src =>
        simp only [] at h
        repeat' split at h
        all_goals
          first
            | exact Option.noConfusion h
            | (injection h with h
               injection h with h1 h2
               subst h2
               exact ⟨_, _, _, rfl⟩)

/-- `transitionFadeIn` only ever changes the global transition alpha. -/
theorem transitionFadeIn_fields (s : AnimState) (dt : ℚ) :
    ∃ a, transitionFadeIn s dt = { s with transitionAlpha := a } := by
  unfold transitionFadeIn
  split
  · exact ⟨_, rfl⟩
  · exact ⟨s.transitionAlpha, rfl⟩

/-- `fadeAlphaStep` only ever changes the zones. -/
theorem fadeAlphaStep_fields (s : AnimState) (eff : ℚ) :
    ∃ zs, fadeAlphaStep s eff = { s with zones := zs } := by
  unfold fadeAlphaStep
  split
  · exact ⟨s.zones, rfl⟩
  · split
    · exact ⟨s.zones, rfl⟩
    · split
      · exact ⟨_, rfl⟩
      · exact ⟨s.zones, rfl⟩

/-! ### C3: cursor advance and cycle counter -/

theorem advance_idx (s : AnimState) :
    (advanceToNextZone s).currentZoneIndex =
      if s.currentZoneIndex + 1 ≥ s.categories.length then 0
      else s.currentZoneIndex + 1 := by
  unfold advanceToNextZone
  by_cases h : s.currentZoneIndex + 1 ≥ s.categories.length
  · simp only [if_pos h]
  · simp only [if_neg h]

theorem advance_set (s : AnimState) :
    (advanceToNextZone s).currentSet =
      if s.currentZoneIndex + 1 ≥ s.categories.length then
        (if s.currentSet + 1 ≥ 1000 then 0 else s.currentSet + 1)
      else s.currentSet := by
  unfold advanceToNextZone
  by_cases h : s.currentZoneIndex + 1 ≥ s.categories.length
  · simp only [if_pos h]
  · simp only [if_neg h]

/-- C3: the cursor advances by exactly one category, wrapping to 0 after
the last category; on a wrap the cycle counter increments by exactly one
(falling back to 0 when it reaches 1000, so it stays below the bound);
the `HOLDING`-to-`FADING` transition of `update` applies exactly this
advance, and a `HOLDING` tick below the hold duration leaves the cursor
untouched. -/
theorem c3_cursor (s : AnimState) (k : ℕ) (loaded : String → Bool) (dt : ℚ) :
    ((advanceToNextZone s).currentZoneIndex =
      if s.currentZoneIndex + 1 ≥ s.categories.length then 0
      else s.currentZoneIndex + 1) ∧
    (s.currentZoneIndex + 1 < s.categories.length →
      (advanceToNextZone s).currentSet = s.currentSet) ∧
    (s.currentZoneIndex + 1 ≥ s.categories.length →
      (advanceToNextZone s).currentSet =
        if s.currentSet + 1 ≥ 1000 then 0 else s.currentSet + 1) ∧
    (s.currentSet < 1000 → (advanceToNextZone s).currentSet < 1000) ∧
    (∀ s', s.state = .HOLDING → s.transitioningOut = false →
      s.holdDuration ≤ s.stateTime + dt → update k loaded s dt = some s' →
      s'.currentZoneIndex = (advanceToNextZone s).currentZoneIndex ∧
      s'.currentSet = (advanceToNextZone s).currentSet) ∧
    (∀ s', s.state = .HOLDING → s.transitioningOut = false →
      s.stateTime + dt < s.holdDuration → update k loaded s dt = some s' →
      s'.currentZoneIndex = s.currentZoneIndex ∧ s'.currentSet = s.currentSet) := by
  refine ⟨advance_idx s, ?_, ?_, ?_, ?_, ?_⟩
  · intro hlt
    rw [advance_set s, if_neg (by omega)]
  · intro hge
    rw [advance_set s, if_pos hge]
  · intro hlt
    rw [advance_set s]
    split
    · split <;> omega
    · exact hlt
  · intro s' hst hto hge hupd
    unfold update at hupd
    rw [hto] at hupd
    simp only [Bool.false_eq_true, if_false] at hupd
    obtain ⟨a, ha⟩ := transitionFadeIn_fields s dt
    rw [ha] at hupd
    simp only [hst] at hupd
    rw [if_pos hge] at hupd
    split at hupd
    · exact absurd hupd (by simp)
    · rename_i b s4 hsf
      obtain ⟨u, zs, ev, rfl⟩ := startZoneFade_fields hsf
      injection hupd with hupd
      rw [← hupd]
      constructor <;> simp [advance_idx, advance_set]
  · intro s' hst hto hlt hupd
    unfold update at hupd
    rw [hto] at hupd
    simp only [Bool.false_eq_true, if_false] at hupd
    obtain ⟨a, ha⟩ := transitionFadeIn_fields s dt
    rw [ha] at hupd
    simp only [hst] at hupd
    rw [if_neg (not_le.mpr hlt)] at hupd
    injection hupd with hupd
    rw [← hupd]
    exact ⟨rfl, rfl⟩

/-- C3 witness: the `HOLDING`-threshold conjunct of `c3_cursor` at a
concrete two-category state: one hold tick of the full hold duration
advances the cursor from category 0 to category 1 without touching the
cycle counter. -/
theorem c3_cursor_witness :
    (update 0 (fun _ => true)
        { setImages [("red", ["a"]), ("blue", ["b"])] ["red", "blue"] (initState false) with
          state := MachineState.HOLDING } (17/10)).map
      (fun t => (t.currentZoneIndex, t.currentSet)) = some (1, 0) := by
  cases hupd : update 0 (fun _ => true)
      { setImages [("red", ["a"]), ("blue", ["b"])] ["red", "blue"] (initState false) with
        state := MachineState.HOLDING } (17/10) with
  | none => exact absurd hupd (by decide)
  | some t =>
    obtain ⟨-, -, -, -, h5, -⟩ := c3_cursor
      { setImages [("red", ["a"]), ("blue", ["b"])] ["red", "blue"] (initState false) with
        state := MachineState.HOLDING } 0 (fun _ => true) (17/10)
    obtain ⟨hidx, hset⟩ := h5 t (by decide) (by decide) (by decide) hupd
    show some (t.currentZoneIndex, t.currentSet) = some (1, 0)
    rw [hidx, hset]
    decide

/-! ### C2: the IDLE/FADING/HOLDING state machine -/

theorem effFade_default {s : AnimState} (hrm : s.prefersReducedMotion = false) :
    effFade s = s.fadeDuration := by
  simp [effFade, hrm]

theorem fadeAlphaStep_stateTime (s : AnimState) (e : ℚ) :
    (fadeAlphaStep s e).stateTime = s.stateTime := by
  obtain ⟨zs, h⟩ := fadeAlphaStep_fields s e
  rw [h]

theorem fadeAlphaStep_skip {s : AnimState} {color : String} {z : Zone} (e : ℚ)
    (hc : s.categories.get? s.currentZoneIndex = some color)
    (hz : lookupA s.zones color = some z) (hi : z.incoming = none) :
    fadeAlphaStep s e = s := by
  unfold fadeAlphaStep
  rw [hc]
  simp only []
  rw [hz]
  simp only [hi, Option.isSome_none, Bool.false_eq_true, if_false]

theorem fadeAlphaStep_write {s : AnimState} {color : String} {z : Zone} (e : ℚ)
    (hc : s.categories.get? s.currentZoneIndex = some color)
    (hz : lookupA s.zones color = some z) (hi : z.incoming.isSome = true) :
    ∃ az,
      fadeAlphaStep s e = { s with zones := setA s.zones color ⟨z.current, z.incoming, az⟩ }
      ∧ az = (if s.prefersReducedMotion then min (s.stateTime / e) 1
              else easeInOutCubic (min (s.stateTime / e) 1)) := by
  unfold fadeAlphaStep
  rw [hc]
  simp only []
  rw [hz]
  simp only [hi, if_true]
  exact ⟨_, rfl, rfl⟩

theorem completeZoneFade_spec {s : AnimState} {color : String} {z : Zone}
    {s' : AnimState}
    (hc : s.categories.get? s.currentZoneIndex = some color)
    (hz : lookupA s.zones color = some z)
    (h : completeZoneFade s = some s') :
    s' = { s with zones := setA s.zones color ⟨z.incoming, none, 0⟩ } := by
  unfold completeZoneFade at h
  rw [hc] at h
  simp only [] at h
  rw [hz] at h
  simp only [] at h
  injection h with h
  exact h.symm

/-- C2: from `IDLE`, `start()` enters `FADING` with elapsed time 0; a
tick in `IDLE` stays `IDLE`; a `FADING` tick below `fadeDuration` stays
`FADING` accumulating elapsed time, and on reaching `fadeDuration`
promotes the active zone's `incoming` to `current` (clearing `incoming`
and resetting the zone alpha to 0), entering `HOLDING` with elapsed time
0; a `HOLDING` tick below `holdDuration` stays `HOLDING` accumulating
elapsed time, and on reaching `holdDuration` re-enters `FADING` with
elapsed time 0 — so the only transitions are IDLE→FADING (via start),
FADING→HOLDING and HOLDING→FADING. -/
theorem c2_state_machine (s : AnimState) (dt : ℚ) (k : ℕ) (loaded : String → Bool)
    (hrm : s.prefersReducedMotion = false)
    (hto : s.transitioningOut = false) :
    (∀ now rafId s1, s.running = false → s.state = MachineState.IDLE →
      start now rafId k loaded s = some s1 →
      s1.state = MachineState.FADING ∧ s1.stateTime = 0) ∧
    (∀ s1, s.state = MachineState.IDLE → update k loaded s dt = some s1 →
      s1.state = MachineState.IDLE) ∧
    (∀ s1, s.state = MachineState.FADING → s.stateTime + dt < s.fadeDuration →
      update k loaded s dt = some s1 →
      s1.state = MachineState.FADING ∧ s1.stateTime = s.stateTime + dt) ∧
    (∀ s1 color z, s.state = MachineState.FADING →
      s.fadeDuration ≤ s.stateTime + dt →
      s.categories.get? s.currentZoneIndex = some color →
      lookupA s.zones color = some z →
      update k loaded s dt = some s1 →
      s1.state = MachineState.HOLDING ∧ s1.stateTime = 0 ∧
      lookupA s1.zones color = some ⟨z.incoming, none, 0⟩) ∧
    (∀ s1, s.state = MachineState.HOLDING → s.stateTime + dt < s.holdDuration →
      update k loaded s dt = some s1 →
      s1.state = MachineState.HOLDING ∧ s1.stateTime = s.stateTime + dt) ∧
    (∀ s1, s.state = MachineState.HOLDING → s.holdDuration ≤ s.stateTime + dt →
      update k loaded s dt = some s1 →
      s1.state = MachineState.FADING ∧ s1.stateTime = 0) := by
  refine ⟨?_, ?_, ?_, ?_, ?_, ?_⟩
  · intro now rafId s1 hrun hidle hst
    unfold start at hst
    rw [hrun] at hst
    simp only [Bool.false_eq_true, if_false] at hst
    split at hst
    · exact Option.noConfusion hst
    · injection hst with hst
      rw [← hst]
      exact ⟨rfl, rfl⟩
  · intro s1 hst hupd
    unfold update at hupd
    rw [hto] at hupd
    simp only [Bool.false_eq_true, if_false] at hupd
    obtain ⟨a, ha⟩ := transitionFadeIn_fields s dt
    rw [ha] at hupd
    simp only [hst] at hupd
    injection hupd with hupd
    rw [← hupd]
  · intro s1 hst hlt hupd
    unfold update at hupd
    rw [hto] at hupd
    simp only [Bool.false_eq_true, if_false] at hupd
    obtain ⟨a, ha⟩ := transitionFadeIn_fields s dt
    rw [ha] at hupd
    simp only [hst] at hupd
    rw [effFade_default hrm] at hupd
    simp only [fadeAlphaStep_stateTime] at hupd
    rw [if_neg (not_le.mpr hlt)] at hupd
    injection hupd with hupd
    obtain ⟨zs, hzs⟩ := fadeAlphaStep_fields
      { s with
          state := MachineState.FADING
          stateTime := s.stateTime + dt
          transitionAlpha := a } s.fadeDuration
    rw [hzs] at hupd
    rw [← hupd]
    exact ⟨rfl, rfl⟩
  · intro s1 color z hst hge hc hz hupd
    unfold update at hupd
    rw [hto] at hupd
    simp only [Bool.false_eq_true, if_false] at hupd
    obtain ⟨a, ha⟩ := transitionFadeIn_fields s dt
    rw [ha] at hupd
    simp only [hst] at hupd
    rw [effFade_default hrm] at hupd
    simp only [fadeAlphaStep_stateTime] at hupd
    rw [if_pos hge] at hupd
    split at hupd
    · exact Option.noConfusion hupd
    · rename_i s4 heq
      injection hupd with hupd
      rw [← hupd]
      refine ⟨rfl, rfl, ?_⟩
      show lookupA s4.zones color = some ⟨z.incoming, none, 0⟩
      cases hi : z.incoming.isSome with
      | false =>
        have hn : z.incoming = none :=
          Option.not_isSome_iff_eq_none.mp (by rw [hi]; exact Bool.false_ne_true)
        rw [@fadeAlphaStep_skip
            { s with
                state := MachineState.FADING
                stateTime := s.stateTime + dt
                transitionAlpha := a } color z s.fadeDuration hc hz hn] at heq
        rw [@completeZoneFade_spec
            { s with
                state := MachineState.FADING
                stateTime := s.stateTime + dt
                transitionAlpha := a } color z s4 hc hz heq]
        exact lookupA_setA_self _ color _
      | true =>
        obtain ⟨az, hw, -⟩ := @fadeAlphaStep_write
          { s with
              state := MachineState.FADING
              stateTime := s.stateTime + dt
              transitionAlpha := a } color z s.fadeDuration hc hz hi
        rw [hw] at heq
        rw [@completeZoneFade_spec
            { s with
                state := MachineState.FADING
                stateTime := s.stateTime + dt
                transitionAlpha := a
                zones := setA s.zones color ⟨z.current, z.incoming, az⟩ }
            color ⟨z.current, z.incoming, az⟩ s4 hc
            (lookupA_setA_self s.zones color ⟨z.current, z.incoming, az⟩) heq]
        exact lookupA_setA_self _ color _
  · intro s1 hst hlt hupd
    unfold update at hupd
    rw [hto] at hupd
    simp only [Bool.false_eq_true, if_false] at hupd
    obtain ⟨a, ha⟩ := transitionFadeIn_fields s dt
    rw [ha] at hupd
    simp only [hst] at hupd
    rw [if_neg (not_le.mpr hlt)] at hupd
    injection hupd with hupd
    rw [← hupd]
    exact ⟨rfl, rfl⟩
  · intro s1 hst hge hupd
    unfold update at hupd
    rw [hto] at hupd
    simp only [Bool.false_eq_true, if_false] at hupd
    obtain ⟨a, ha⟩ := transitionFadeIn_fields s dt
    rw [ha] at hupd
    simp only [hst] at hupd
    rw [if_pos hge] at hupd
    split at hupd
    · exact Option.noConfusion hupd
    · injection hupd with hupd
      rw [← hupd]
      exact ⟨rfl, rfl⟩

/-- A concrete mid-fade state used by witnesses: one category `"red"`
with one image `"a"`, the zone currently fading `"a"` in. -/
def exampleFading : AnimState :=
  { setImages [("red", ["a"])] ["red"] (initState false) with
      state := MachineState.FADING
      zones := [("red", ⟨none, some "a", 0⟩)] }

/-- C2 witness: a full fade tick on `exampleFading` promotes the
incoming image to current and lands in `HOLDING` with elapsed time 0. -/
theorem c2_state_machine_witness :
    (update 0 (fun _ => true) exampleFading (17/10)).map
        (fun t => (t.state, t.stateTime, lookupA t.zones "red"))
      = some (MachineState.HOLDING, 0, some ⟨some "a", none, 0⟩) := by
  cases hupd : update 0 (fun _ => true) exampleFading (17/10) with
  | none => exact absurd hupd (by decide)
  | some t =>
    obtain ⟨-, -, -, h4, -, -⟩ :=
      c2_state_machine exampleFading (17/10) 0 (fun _ => true) (by decide) (by decide)
    obtain ⟨h1, h2, h3⟩ := h4 t "red" ⟨none, some "a", 0⟩
      (by decide) (by decide) (by decide) (by decide) hupd
    show some (t.state, t.stateTime, lookupA t.zones "red") = _
    rw [h1, h2, h3]

/-! ### C5: the global style transition -/

theorem advance_fields (s : AnimState) :
    ∃ i c, advanceToNextZone s = { s with currentZoneIndex := i, currentSet := c } := by
  unfold advanceToNextZone
  simp only []
  by_cases h : s.currentZoneIndex + 1 ≥ s.categories.length
  · simp only [if_pos h]
    exact ⟨_, _, rfl⟩
  · simp only [if_neg h]
    exact ⟨_, _, rfl⟩

theorem advance_tcFires (s : AnimState) :
    (advanceToNextZone s).tcFires = s.tcFires := by
  obtain ⟨i, c, h⟩ := advance_fields s
  rw [h]

theorem advance_transitionAlpha (s : AnimState) :
    (advanceToNextZone s).transitionAlpha = s.transitionAlpha := by
  obtain ⟨i, c, h⟩ := advance_fields s
  rw [h]

theorem completeZoneFade_fields {s s' : AnimState}
    (h : completeZoneFade s = some s') : ∃ zs, s' = { s with zones := zs } := by
  unfold completeZoneFade at h
  repeat' split at h
  all_goals
    first
      | exact Option.noConfusion h
      | (injection h with h
         subst h
         exact ⟨_, rfl⟩)

theorem completeZoneFade_tcFires {s s' : AnimState}
    (h : completeZoneFade s = some s') : s'.tcFires = s.tcFires := by
  obtain ⟨zs, rfl⟩ := completeZoneFade_fields h
  rfl

theorem completeZoneFade_transitionAlpha {s s' : AnimState}
    (h : completeZoneFade s = some s') : s'.transitionAlpha = s.transitionAlpha := by
  obtain ⟨zs, rfl⟩ := completeZoneFade_fields h
  rfl

theorem startZoneFade_tcFires {k : ℕ} {loaded : String → Bool} {s : AnimState}
    {b : Bool} {s' : AnimState} (h : startZoneFade k loaded s = some (b, s')) :
    s'.tcFires = s.tcFires := by
  obtain ⟨u, zs, ev, rfl⟩ := startZoneFade_fields h
  rfl

theorem startZoneFade_transitionAlpha {k : ℕ} {loaded : String → Bool} {s : AnimState}
    {b : Bool} {s' : AnimState} (h : startZoneFade k loaded s = some (b, s')) :
    s'.transitionAlpha = s.transitionAlpha := by
  obtain ⟨u, zs, ev, rfl⟩ := startZoneFade_fields h
  rfl

theorem fadeAlphaStep_tcFires (s : AnimState) (e : ℚ) :
    (fadeAlphaStep s e).tcFires = s.tcFires := by
  obtain ⟨zs, h⟩ := fadeAlphaStep_fields s e
  rw [h]

theorem fadeAlphaStep_transitionAlpha (s : AnimState) (e : ℚ) :
    (fadeAlphaStep s e).transitionAlpha = s.transitionAlpha := by
  obtain ⟨zs, h⟩ := fadeAlphaStep_fields s e
  rw [h]

/-- With no transition-out active, one tick never touches the
completion-callback count and leaves the global alpha exactly as the
fade-in step set it. -/
theorem update_noTransition_effects {k : ℕ} {loaded : String → Bool}
    {s : AnimState} {dt : ℚ} {s1 : AnimState}
    (hto : s.transitioningOut = false) (hupd : update k loaded s dt = some s1) :
    s1.tcFires = s.tcFires ∧
    s1.transitionAlpha = (transitionFadeIn s dt).transitionAlpha := by
  unfold update at hupd
  rw [hto] at hupd
  simp only [Bool.false_eq_true, if_false] at hupd
  obtain ⟨a, ha⟩ := transitionFadeIn_fields s dt
  rw [ha]
  rw [ha] at hupd
  cases hst : s.state <;> simp only [hst] at hupd
  · injection hupd with hupd
    subst hupd
    exact ⟨rfl, rfl⟩
  · split at hupd
    · split at hupd
      · exact Option.noConfusion hupd
      · rename_i s4 heq
        injection hupd with hupd
        subst hupd
        constructor
        · show s4.tcFires = s.tcFires
          rw [completeZoneFade_tcFires heq, fadeAlphaStep_tcFires]
        · show s4.transitionAlpha = a
          rw [completeZoneFade_transitionAlpha heq, fadeAlphaStep_transitionAlpha]
    · injection hupd with hupd
      subst hupd
      exact ⟨by rw [fadeAlphaStep_tcFires], by rw [fadeAlphaStep_transitionAlpha]⟩
  · split at hupd
    · split at hupd
      · exact Option.noConfusion hupd
      · rename_i b s4 heq
        injection hupd with hupd
        subst hupd
        constructor
        · show s4.tcFires = s.tcFires
          rw [startZoneFade_tcFires heq, advance_tcFires]
        · show s4.transitionAlpha = a
          rw [startZoneFade_transitionAlpha heq, advance_transitionAlpha]
    · injection hupd with hupd
      subst hupd
      exact ⟨rfl, rfl⟩

theorem transitionFadeIn_alpha {s : AnimState} (dt : ℚ)
    (h : s.transitionAlpha < 1) :
    (transitionFadeIn s dt).transitionAlpha =
      min (s.transitionAlpha + dt / effFade s) 1 := by
  unfold transitionFadeIn
  rw [if_pos h]
  show (if s.transitionAlpha + dt / effFade s > 1 then 1
        else s.transitionAlpha + dt / effFade s) = _
  split
  · exact (min_eq_right (le_of_lt (by assumption))).symm
  · exact (min_eq_left (not_lt.mp (by assumption))).symm

/-- C5 (amended): `beginTransition()` sets the transitioning-out flag
and resets the global alpha to 1; each subsequent tick decays the alpha
linearly by `dt / effectiveFadeDuration` (so it reaches 0 after one fade
duration) — not through the zone easing curve — clamping at 0; at the
tick where it reaches 0 the flag clears and the completion callback
fires exactly once (no tick without an active transition-out ever fires
it); afterwards, while the alpha is below 1 and no transition-out is
active, the alpha ramps back up linearly, clamped at 1. -/
theorem c5_transition (s : AnimState) (k : ℕ) (loaded : String → Bool) (dt : ℚ) :
    ((beginTransition s).transitioningOut = true ∧
      (beginTransition s).transitionAlpha = 1) ∧
    (s.transitioningOut = true →
      (0 < s.transitionAlpha - dt / effFade s →
        update k loaded s dt =
          some { s with transitionAlpha := s.transitionAlpha - dt / effFade s }) ∧
      (s.transitionAlpha - dt / effFade s ≤ 0 →
        update k loaded s dt =
          some { s with
              transitionAlpha := 0
              transitioningOut := false
              tcFires := s.tcFires + 1 })) ∧
    (s.transitioningOut = false → ∀ s1, update k loaded s dt = some s1 →
      s1.tcFires = s.tcFires) ∧
    (s.transitioningOut = false → s.transitionAlpha < 1 →
      ∀ s1, update k loaded s dt = some s1 →
      s1.transitionAlpha = min (s.transitionAlpha + dt / effFade s) 1) := by
  refine ⟨⟨rfl, rfl⟩, ?_, ?_, ?_⟩
  · intro hto
    constructor
    · intro hpos
      unfold update
      rw [hto]
      simp only [if_true]
      rw [if_neg (not_le.mpr hpos)]
    · intro hnp
      unfold update
      rw [hto]
      simp only [if_true]
      rw [if_pos hnp]
  · intro hto s1 hupd
    exact (update_noTransition_effects hto hupd).1
  · intro hto hlt s1 hupd
    rw [(update_noTransition_effects hto hupd).2]
    exact transitionFadeIn_alpha dt hlt

/-- C5 witness: from a mid-transition state with alpha 1 and fade 1.7s,
a quarter-duration tick leaves alpha exactly 3/4 (linear decay), and a
crossing tick fires the completion callback. -/
theorem c5_transition_witness :
    (update 0 (fun _ => true) (beginTransition (initState false)) (17/40) =
      some { beginTransition (initState false) with transitionAlpha := 3/4 }) ∧
    (update 0 (fun _ => true) (beginTransition (initState false)) (17/10) =
      some { beginTransition (initState false) with
          transitionAlpha := 0
          transitioningOut := false
          tcFires := 1 }) := by
  obtain ⟨-, h2, -, -⟩ :=
    c5_transition (beginTransition (initState false)) 0 (fun _ => true) (17/40)
  obtain ⟨-, h2b, -, -⟩ :=
    c5_transition (beginTransition (initState false)) 0 (fun _ => true) (17/10)
  obtain ⟨hdec, -⟩ := h2 rfl
  obtain ⟨-, hzero⟩ := h2b rfl
  constructor
  · rw [hdec (by decide)]
    decide
  · rw [hzero (by decide)]
    decide

/-- C5 counterexample to the claim as stated: the decay is linear, not
the zone easing curve — a quarter of the fade duration after
`beginTransition()` the alpha is 3/4, while an eased decay (the zone
policy, 1 − easeInOutCubic(t/fade)) would give 15/16. -/
theorem c5_counterexample :
    (update 0 (fun _ => true) (beginTransition (initState false)) (17/40)).map
        (fun t => t.transitionAlpha) = some (3/4) ∧
    1 - easeInOutCubic ((17/40) / (17/10)) = 15/16 ∧
    ((3/4 : ℚ) = 15/16 → False) := by
  refine ⟨by decide, ?_, by norm_num⟩
  norm_num [easeInOutCubic]

/-! ### C6: reduced-motion behavior -/

/-- C6 (amended): with the reduced-motion preference active, `update`
substitutes the short fixed fade duration 0.1 s for `fadeDuration`, and
while fading the active zone's alpha is the linear (un-eased) progress
`stateTime / 0.1`. At the exact midpoint the linear value coincides
with the S-curve value (both are 1/2), so a midpoint sample cannot
separate them; at other interior samples they differ, e.g. at the
quarter point the S-curve value `easeInOutCubic (1/4) = 1/16` is not the
linear `1/4`. -/
theorem c6_reduced_motion (s : AnimState) (k : ℕ) (loaded : String → Bool)
    (dt : ℚ) (color : String) (z : Zone)
    (hrm : s.prefersReducedMotion = true)
    (hto : s.transitioningOut = false)
    (hst : s.state = MachineState.FADING)
    (hc : s.categories.get? s.currentZoneIndex = some color)
    (hz : lookupA s.zones color = some z)
    (hi : z.incoming.isSome = true)
    (hlt : s.stateTime + dt < 1/10) :
    effFade s = 1/10 ∧
    (∀ s1, update k loaded s dt = some s1 →
      s1.state = MachineState.FADING ∧
      lookupA s1.zones color =
        some ⟨z.current, z.incoming, (s.stateTime + dt) / (1/10)⟩) ∧
    easeInOutCubic (1/2) = 1/2 ∧ easeInOutCubic (1/4) ≠ (1/4 : ℚ) := by
  refine ⟨by simp [effFade, hrm], ?_, by norm_num [easeInOutCubic], ?_⟩
  · intro s1 hupd
    unfold update at hupd
    rw [hto] at hupd
    simp only [Bool.false_eq_true, if_false] at hupd
    obtain ⟨a, ha⟩ := transitionFadeIn_fields s dt
    rw [ha] at hupd
    simp only [hst] at hupd
    rw [show effFade s = 1/10 from by simp [effFade, hrm]] at hupd
    simp only [fadeAlphaStep_stateTime] at hupd
    rw [if_neg (not_le.mpr hlt)] at hupd
    obtain ⟨az, hw, haz⟩ := @fadeAlphaStep_write
      { s with
          state := MachineState.FADING
          stateTime := s.stateTime + dt
          transitionAlpha := a } color z (1/10) hc hz hi
    rw [hw] at hupd
    injection hupd with hupd
    subst hupd
    have haz2 : az = (s.stateTime + dt) / (1/10) := by
      rw [haz]
      simp only [hrm, if_true]
      exact min_eq_left (le_of_lt ((div_lt_one (by norm_num)).mpr hlt))
    refine ⟨rfl, ?_⟩
    rw [show lookupA
        (setA s.zones color ⟨z.current, z.incoming, az⟩) color
        = some ⟨z.current, z.incoming, az⟩ from lookupA_setA_self _ color _]
    rw [haz2]
  · norm_num [easeInOutCubic]

/-- C6 witness: `c6_reduced_motion` at a concrete reduced-motion fade:
a 0.04 s tick on a fresh fade gives linear alpha `0.4`. -/
theorem c6_reduced_motion_witness :
    (update 0 (fun _ => true)
        { exampleFading with prefersReducedMotion := true } (1/25)).map
      (fun t => (t.state, (lookupA t.zones "red").map Zone.alpha))
    = some (MachineState.FADING, some (2/5)) := by
  cases hupd : update 0 (fun _ => true)
      { exampleFading with prefersReducedMotion := true } (1/25) with
  | none => exact absurd hupd (by decide)
  | some t =>
    obtain ⟨-, h2, -, -⟩ := c6_reduced_motion
      { exampleFading with prefersReducedMotion := true } 0 (fun _ => true) (1/25)
      "red" ⟨none, some "a", 0⟩ (by decide) (by decide) (by decide) (by decide)
      (by decide) (by decide) (by decide)
    obtain ⟨h1, h3⟩ := h2 t hupd
    show some (t.state, (lookupA t.zones "red").map Zone.alpha) = _
    rw [h1, h3]
    decide

/-- C6 counterexample to the claim as stated: sampling the zone alpha at
the midpoint of the shortened reduced-motion fade (0.05 s of 0.1 s)
yields 1/2 — which IS the S-curve value, since
`easeInOutCubic (1/2) = 1/2`; "the linear progress value, not the
S-curve value" fails at the midpoint. -/
theorem c6_counterexample :
    ((start 0 0 0 (fun _ => true)
        (setImages [("red", ["a"])] ["red"] (initState true))).bind
      (fun s1 => update 0 (fun _ => true) s1 (1/20))).map
        (fun s2 => (lookupA s2.zones "red").map Zone.alpha)
      = some (some (1/2)) ∧
    easeInOutCubic (1/2) = 1/2 := by
  constructor
  · decide
  · norm_num [easeInOutCubic]

/-! ### C4: alpha values stay in [0,1] -/

/-- `easeInOutCubic` maps `[0,1]` into `[0,1]`. -/
theorem easeInOutCubic_bounds {t : ℚ} (h0 : 0 ≤ t) (h1 : t ≤ 1) :
    0 ≤ easeInOutCubic t ∧ easeInOutCubic t ≤ 1 := by
  unfold easeInOutCubic
  split
  · rename_i hlt
    constructor
    · nlinarith [mul_nonneg (mul_nonneg h0 h0) h0]
    · nlinarith [mul_nonneg (mul_nonneg h0 h0) h0, mul_nonneg h0 h0]
  · rename_i hge
    have hge2 : (1:ℚ)/2 ≤ t := le_of_not_lt hge
    have hu0 : (0:ℚ) ≤ -2*t + 2 := by linarith
    have hu1 : -2*t + 2 ≤ (1:ℚ) := by linarith
    have hcube0 : (0:ℚ) ≤ (-2*t + 2)^3 := by positivity
    have hcube1 : (-2*t + 2)^3 ≤ (1:ℚ) := by nlinarith [sq_nonneg (-2*t + 2), mul_nonneg hu0 hu0]
    constructor <;> linarith

/-- The alpha-bounds part of the engine invariant: the global transition
alpha, the per-zone alphas (and the state timer, which feeds the fade
progress) stay within their ranges. -/
def AlphaInv (s : AnimState) : Prop :=
  0 ≤ s.transitionAlpha ∧ s.transitionAlpha ≤ 1 ∧ 0 ≤ s.stateTime ∧
  ∀ p ∈ s.zones, 0 ≤ p.2.alpha ∧ p.2.alpha ≤ 1

instance (s : AnimState) : Decidable (AlphaInv s) := by
  unfold AlphaInv
  infer_instance

theorem alphaBounds_setA {l : List (String × Zone)} {color : String} {z : Zone}
    (hl : ∀ p ∈ l, 0 ≤ p.2.alpha ∧ p.2.alpha ≤ 1)
    (hz : 0 ≤ z.alpha ∧ z.alpha ≤ 1) :
    ∀ p ∈ setA l color z, 0 ≤ p.2.alpha ∧ p.2.alpha ≤ 1 := by
  intro p hp
  rcases mem_setA hp with rfl | ⟨hmem, -⟩
  · exact hz
  · exact hl p hmem

/-- The zones after `fadeAlphaStep`: unchanged، or the active zone with
its alpha replaced by the (possibly eased) fade progress. -/
theorem fadeAlphaStep_zones (s : AnimState) (e : ℚ) :
    (fadeAlphaStep s e).zones = s.zones ∨
    ∃ color z, s.categories.get? s.currentZoneIndex = some color ∧
      lookupA s.zones color = some z ∧ z.incoming.isSome = true ∧
      (fadeAlphaStep s e).zones = setA s.zones color
        ⟨z.current, z.incoming,
          if s.prefersReducedMotion then min (s.stateTime / e) 1
          else easeInOutCubic (min (s.stateTime / e) 1)⟩ := by
  unfold fadeAlphaStep
  cases hc : s.categories.get? s.currentZoneIndex with
  | none => exact Or.inl rfl
  | some color =>
    simp only []
    cases hz : lookupA s.zones color with
    | none => exact Or.inl rfl
    | some z =>
      simp only []
      by_cases hi : z.incoming.isSome
      · rw [if_pos hi]
        exact Or.inr ⟨color, z, rfl, hz, hi, rfl⟩
      · rw [if_neg hi]
        exact Or.inl rfl

/-- The zones after `startZoneFade`: unchanged, or the active zone with
a fresh incoming image at alpha 0. -/
theorem startZoneFade_zones {k : ℕ} {loaded : String → Bool} {s : AnimState}
    {b : Bool} {s' : AnimState}
    (h : startZoneFade k loaded s = some (b, s')) :
    s'.zones = s.zones ∨
    ∃ color z src, s.categories.get? s.currentZoneIndex = some color ∧
      lookupA s.zones color = some z ∧ imagesOf s color ≠ [] ∧
      s'.zones = setA s.zones color ⟨z.current, some src, 0⟩ := by
  unfold startZoneFade at h
  cases hc : s.categories.get? s.currentZoneIndex with
  | none =>
    rw [hc] at h
    injection h with h
    injection h with h1 h2
    subst h2
    exact Or.inl rfl
  | some color =>
    rw [hc] at h
    simp only [] at h
    cases hg : getRandomImage k s color with
    | none =>
      rw [hg] at h
      exact Option.noConfusion h
    | some rs =>
      obtain ⟨r, s1⟩ := rs
      rw [hg] at h
      obtain ⟨u, rfl⟩ := getRandomImage_fields hg
      cases r with
      | none =>
        injection h with h
        injection h with h1 h2
        subst h2
        exact Or.inl rfl
      | some src =>
        simp only [] at h
        split at h
        · split at h
          · exact Option.noConfusion h
          · rename_i z hz
            injection h with h
            injection h with h1 h2
            subst h2
            exact Or.inr ⟨color, z, src, rfl, hz, (getRandomImage_src hg).1, rfl⟩
        · injection h with h
          injection h with h1 h2
          subst h2
          exact Or.inl rfl

/-- The full effect of a successful `completeZoneFade`. -/
theorem completeZoneFade_zones {s s' : AnimState}
    (h : completeZoneFade s = some s') :
    ∃ color z, s.categories.get? s.currentZoneIndex = some color ∧
      lookupA s.zones color = some z ∧
      s' = { s with zones := setA s.zones color ⟨z.incoming, none, 0⟩ } := by
  unfold completeZoneFade at h
  cases hc : s.categories.get? s.currentZoneIndex with
  | none => rw [hc] at h; exact Option.noConfusion h
  | some color =>
    rw [hc] at h
    simp only [] at h
    cases hz : lookupA s.zones color with
    | none => rw [hz] at h; exact Option.noConfusion h
    | some z =>
      rw [hz] at h
      simp only [] at h
      injection h with h
      exact ⟨color, z, rfl, hz, h.symm⟩

theorem fadeAlphaStep_alphaBounds {s : AnimState} {e : ℚ}
    (he : 0 < e) (hst : 0 ≤ s.stateTime)
    (hl : ∀ p ∈ s.zones, 0 ≤ p.2.alpha ∧ p.2.alpha ≤ 1) :
    ∀ p ∈ (fadeAlphaStep s e).zones, 0 ≤ p.2.alpha ∧ p.2.alpha ≤ 1 := by
  rcases fadeAlphaStep_zones s e with hz | ⟨color, z, -, -, -, hz⟩ <;> rw [hz]
  · exact hl
  · apply alphaBounds_setA hl
    have hprog0 : (0:ℚ) ≤ min (s.stateTime / e) 1 :=
      le_min (div_nonneg hst he.le) zero_le_one
    have hprog1 : min (s.stateTime / e) 1 ≤ 1 := min_le_right _ _
    have hval : 0 ≤ (if s.prefersReducedMotion then min (s.stateTime / e) 1
          else easeInOutCubic (min (s.stateTime / e) 1)) ∧
        (if s.prefersReducedMotion then min (s.stateTime / e) 1
          else easeInOutCubic (min (s.stateTime / e) 1)) ≤ 1 := by
      split
      · exact ⟨hprog0, hprog1⟩
      · exact easeInOutCubic_bounds hprog0 hprog1
    exact hval

theorem fadeAlphaStep_fadeDuration (s : AnimState) (e : ℚ) :
    (fadeAlphaStep s e).fadeDuration = s.fadeDuration := by
  obtain ⟨zs, h⟩ := fadeAlphaStep_fields s e
  rw [h]

theorem advance_zones (s : AnimState) :
    (advanceToNextZone s).zones = s.zones := by
  obtain ⟨i, c, h⟩ := advance_fields s
  rw [h]

theorem advance_fadeDuration (s : AnimState) :
    (advanceToNextZone s).fadeDuration = s.fadeDuration := by
  obtain ⟨i, c, h⟩ := advance_fields s
  rw [h]

theorem completeZoneFade_fadeDuration {s s' : AnimState}
    (h : completeZoneFade s = some s') : s'.fadeDuration = s.fadeDuration := by
  obtain ⟨zs, rfl⟩ := completeZoneFade_fields h
  rfl

theorem startZoneFade_fadeDuration {k : ℕ} {loaded : String → Bool} {s : AnimState}
    {b : Bool} {s' : AnimState} (h : startZoneFade k loaded s = some (b, s')) :
    s'.fadeDuration = s.fadeDuration := by
  obtain ⟨u, zs, ev, rfl⟩ := startZoneFade_fields h
  rfl

/-- One tick preserves the alpha bounds (given non-negative delta and a
positive fade duration) and leaves the fade duration untouched. -/
theorem update_alpha_step {k : ℕ} {loaded : String → Bool} {s : AnimState}
    {dt : ℚ} {s1 : AnimState}
    (hf : 0 < s.fadeDuration) (hdt : 0 ≤ dt)
    (hinv : AlphaInv s) (hupd : update k loaded s dt = some s1) :
    AlphaInv s1 ∧ s1.fadeDuration = s.fadeDuration := by
  obtain ⟨hta0, hta1, hst0, hzb⟩ := hinv
  have heff : 0 < effFade s := by
    unfold effFade
    split
    · norm_num
    · exact hf
  have hdiv : 0 ≤ dt / effFade s := div_nonneg hdt heff.le
  unfold update at hupd
  cases hto : s.transitioningOut <;> rw [hto] at hupd
  case false =>
    simp only [Bool.false_eq_true, if_false] at hupd
    obtain ⟨a, ha⟩ := transitionFadeIn_fields s dt
    have ha01 : 0 ≤ a ∧ a ≤ 1 := by
      by_cases hlt : s.transitionAlpha < 1
      · have := transitionFadeIn_alpha dt hlt
        rw [ha] at this
        simp only [] at this
        rw [this]
        exact ⟨le_min (add_nonneg hta0 hdiv) zero_le_one, min_le_right _ _⟩
      · have : (transitionFadeIn s dt).transitionAlpha = s.transitionAlpha := by
          unfold transitionFadeIn
          rw [if_neg hlt]
        rw [ha] at this
        simp only [] at this
        rw [this]
        exact ⟨hta0, hta1⟩
    rw [ha] at hupd
    have hst1 : 0 ≤ s.stateTime + dt := add_nonneg hst0 hdt
    cases hstate : s.state <;> simp only [hstate] at hupd
    · injection hupd with hupd
      subst hupd
      exact ⟨⟨ha01.1, ha01.2, hst1, hzb⟩, rfl⟩
    · have hzb2 := @fadeAlphaStep_alphaBounds
        { s with
            state := MachineState.FADING
            stateTime := s.stateTime + dt
            transitionAlpha := a } (effFade s) heff hst1 hzb
      split at hupd
      · split at hupd
        · exact Option.noConfusion hupd
        · rename_i s4 heq
          injection hupd with hupd
          subst hupd
          obtain ⟨color, z, -, hz, hs4⟩ := completeZoneFade_zones heq
          refine ⟨⟨?_, ?_, le_refl 0, ?_⟩, ?_⟩
          · show 0 ≤ s4.transitionAlpha
            rw [completeZoneFade_transitionAlpha heq, fadeAlphaStep_transitionAlpha]
            exact ha01.1
          · show s4.transitionAlpha ≤ 1
            rw [completeZoneFade_transitionAlpha heq, fadeAlphaStep_transitionAlpha]
            exact ha01.2
          · show ∀ p ∈ s4.zones, 0 ≤ p.2.alpha ∧ p.2.alpha ≤ 1
            rw [hs4]
            exact alphaBounds_setA hzb2 ⟨le_refl 0, zero_le_one⟩
          · show s4.fadeDuration = s.fadeDuration
            rw [completeZoneFade_fadeDuration heq, fadeAlphaStep_fadeDuration]
      · injection hupd with hupd
        subst hupd
        refine ⟨⟨?_, ?_, ?_, hzb2⟩, ?_⟩
        · rw [fadeAlphaStep_transitionAlpha]
          exact ha01.1
        · rw [fadeAlphaStep_transitionAlpha]
          exact ha01.2
        · rw [fadeAlphaStep_stateTime]
          exact hst1
        · rw [fadeAlphaStep_fadeDuration]
    · split at hupd
      · split at hupd
        · exact Option.noConfusion hupd
        · rename_i b s4 heq
          injection hupd with hupd
          subst hupd
          refine ⟨⟨?_, ?_, le_refl 0, ?_⟩, ?_⟩
          · show 0 ≤ s4.transitionAlpha
            rw [startZoneFade_transitionAlpha heq, advance_transitionAlpha]
            exact ha01.1
          · show s4.transitionAlpha ≤ 1
            rw [startZoneFade_transitionAlpha heq, advance_transitionAlpha]
            exact ha01.2
          · show ∀ p ∈ s4.zones, 0 ≤ p.2.alpha ∧ p.2.alpha ≤ 1
            rcases startZoneFade_zones heq with hzeq | ⟨color, z, src, -, -, -, hzeq⟩ <;>
              rw [hzeq, advance_zones]
            · exact hzb
            · exact alphaBounds_setA hzb ⟨le_refl 0, zero_le_one⟩
          · show s4.fadeDuration = s.fadeDuration
            rw [startZoneFade_fadeDuration heq, advance_fadeDuration]
      · injection hupd with hupd
        subst hupd
        exact ⟨⟨ha01.1, ha01.2, hst1, hzb⟩, rfl⟩
  case true =>
    simp only [if_true] at hupd
    split at hupd
    · injection hupd with hupd
      subst hupd
      exact ⟨⟨le_refl 0, zero_le_one, hst0, hzb⟩, rfl⟩
    · rename_i hpos
      injection hupd with hupd
      subst hupd
      refine ⟨⟨?_, ?_, hst0, hzb⟩, rfl⟩
      · show 0 ≤ s.transitionAlpha - dt / effFade s
        exact le_of_lt (lt_of_not_le hpos)
      · show s.transitionAlpha - dt / effFade s ≤ 1
        have := sub_le_self s.transitionAlpha hdiv
        linarith

/-- A sequence of ticks (each with its own random draw and delta). -/
def updateSeq (loaded : String → Bool) (s : AnimState) :
    List (ℕ × ℚ) → Option AnimState
  | [] => some s
  | c :: rest =>
    match update c.1 loaded s c.2 with
    | none => none
    | some s' => updateSeq loaded s' rest

/-- C4: for every sequence of `update` calls with non-negative deltas
(and a positive configured fade duration), the global transition alpha
and every zone's alpha remain within `[0,1]` — no delta spike can push
them outside. -/
theorem c4_alpha_bounds (loaded : String → Bool) (s : AnimState)
    (calls : List (ℕ × ℚ)) (s1 : AnimState)
    (hf : 0 < s.fadeDuration)
    (hdts : ∀ c ∈ calls, 0 ≤ c.2)
    (hinv : AlphaInv s)
    (h : updateSeq loaded s calls = some s1) : AlphaInv s1 := by
  induction calls generalizing s with
  | nil =>
    unfold updateSeq at h
    injection h with h
    subst h
    exact hinv
  | cons c rest ih =>
    unfold updateSeq at h
    cases hu : update c.1 loaded s c.2 with
    | none => rw [hu] at h; exact Option.noConfusion h
    | some s2 =>
      rw [hu] at h
      obtain ⟨hinv2, hfd⟩ := update_alpha_step hf (hdts c (by simp)) hinv hu
      exact ih s2 (hfd ▸ hf) (fun d hd => hdts d (by simp [hd])) hinv2 h

/-- C4 witness: three ticks — a half-second, a 100-second spike and a
fade-crossing tick — starting mid-fade keep every alpha inside `[0,1]`. -/
theorem c4_alpha_bounds_witness :
    (updateSeq (fun _ => true) exampleFading [(0, 1/2), (0, 100), (0, 3/2)]).elim
      False AlphaInv := by
  cases hupd : updateSeq (fun _ => true) exampleFading [(0, 1/2), (0, 100), (0, 3/2)] with
  | none => exact absurd hupd (by decide)
  | some t =>
    show AlphaInv t
    exact c4_alpha_bounds (fun _ => true) exampleFading [(0, 1/2), (0, 100), (0, 3/2)] t
      (by decide) (by decide) (by decide) hupd

/-! ### Reachable states and the structural invariant (C8, C10) -/

/-- The engine states reachable through the public operations: the
constructor, `setImages`, `reset`, `start`, `stop`, visibility
`pause`/`resume`, `beginTransition`, `setFrame`, `setBackground`,
`update` with a non-negative delta (the driver clamps deltas to
`[0, 0.1]`), assignment of positive durations from the UI sliders, and
the reduced-motion media-query listener. -/
inductive Reachable : AnimState → Prop where
  | init (prm : Bool) : Reachable (initState prm)
  | opSetImages {s : AnimState} (imgs : List (String × List String))
      (cats : List String) : Reachable s → Reachable (setImages imgs cats s)
  | opReset {s : AnimState} : Reachable s → Reachable (reset s)
  | opStart {s s' : AnimState} (now : ℚ) (rafId k : ℕ) (loaded : String → Bool) :
      Reachable s → start now rafId k loaded s = some s' → Reachable s'
  | opStop {s : AnimState} : Reachable s → Reachable (stop s)
  | opPause {s : AnimState} : Reachable s → Reachable (pause s)
  | opResume {s : AnimState} (now : ℚ) (rafId : ℕ) :
      Reachable s → Reachable (resume now rafId s)
  | opBeginTransition {s : AnimState} : Reachable s → Reachable (beginTransition s)
  | opSetFrame {s : AnimState} (f : Option String) :
      Reachable s → Reachable (setFrame f s)
  | opSetBackground {s : AnimState} (b : Option String) :
      Reachable s → Reachable (setBackground b s)
  | opUpdate {s s' : AnimState} (k : ℕ) (loaded : String → Bool) (dt : ℚ) :
      Reachable s → 0 ≤ dt → update k loaded s dt = some s' → Reachable s'
  | opSetDurations {s : AnimState} (f h : ℚ) : Reachable s → 0 < f → 0 < h →
      Reachable { s with fadeDuration := f, holdDuration := h }
  | opSetReducedMotion {s : AnimState} (b : Bool) : Reachable s →
      Reachable { s with prefersReducedMotion := b }

/-- The structural invariant of reachable engine states: the zone and
used-set dictionaries are keyed exactly by the category list, the cursor
stays in range, a zone is dirty (non-null `incoming` or non-zero alpha)
only when it is the active zone during a `FADING` phase, and a category
with no configured images always has a blank zone. -/
structure Inv (s : AnimState) : Prop where
  zones_keys : s.zones.map Prod.fst = s.categories
  used_keys : s.usedImages.map Prod.fst = s.categories
  idx_lt : s.categories ≠ [] → s.currentZoneIndex < s.categories.length
  zone_clean : ∀ p ∈ s.zones, (p.2.incoming ≠ none ∨ p.2.alpha ≠ 0) →
    some p.1 = s.categories.get? s.currentZoneIndex ∧
    s.state = MachineState.FADING
  zone_empty : ∀ p ∈ s.zones, imagesOf s p.1 = [] → p.2 = ⟨none, none, 0⟩

theorem fadeAlphaStep_categories (s : AnimState) (e : ℚ) :
    (fadeAlphaStep s e).categories = s.categories := by
  obtain ⟨zs, h⟩ := fadeAlphaStep_fields s e
  rw [h]

theorem fadeAlphaStep_currentZoneIndex (s : AnimState) (e : ℚ) :
    (fadeAlphaStep s e).currentZoneIndex = s.currentZoneIndex := by
  obtain ⟨zs, h⟩ := fadeAlphaStep_fields s e
  rw [h]

theorem fadeAlphaStep_imagesByColor (s : AnimState) (e : ℚ) :
    (fadeAlphaStep s e).imagesByColor = s.imagesByColor := by
  obtain ⟨zs, h⟩ := fadeAlphaStep_fields s e
  rw [h]

theorem fadeAlphaStep_usedImages (s : AnimState) (e : ℚ) :
    (fadeAlphaStep s e).usedImages = s.usedImages := by
  obtain ⟨zs, h⟩ := fadeAlphaStep_fields s e
  rw [h]

theorem fadeAlphaStep_state (s : AnimState) (e : ℚ) :
    (fadeAlphaStep s e).state = s.state := by
  obtain ⟨zs, h⟩ := fadeAlphaStep_fields s e
  rw [h]

theorem fadeAlphaStep_zones_keys (s : AnimState) (e : ℚ) :
    (fadeAlphaStep s e).zones.map Prod.fst = s.zones.map Prod.fst := by
  rcases fadeAlphaStep_zones s e with hz | ⟨color, z, -, hlz, -, hz⟩ <;> rw [hz]
  exact setA_keys _ color _ (by unfold hasKey; rw [hlz]; rfl)

theorem advance_categories (s : AnimState) :
    (advanceToNextZone s).categories = s.categories := by
  obtain ⟨i, c, h⟩ := advance_fields s
  rw [h]

theorem advance_usedImages (s : AnimState) :
    (advanceToNextZone s).usedImages = s.usedImages := by
  obtain ⟨i, c, h⟩ := advance_fields s
  rw [h]

theorem advance_imagesByColor (s : AnimState) :
    (advanceToNextZone s).imagesByColor = s.imagesByColor := by
  obtain ⟨i, c, h⟩ := advance_fields s
  rw [h]

theorem advance_state (s : AnimState) :
    (advanceToNextZone s).state = s.state := by
  obtain ⟨i, c, h⟩ := advance_fields s
  rw [h]

theorem startZoneFade_categories {k : ℕ} {loaded : String → Bool} {s : AnimState}
    {b : Bool} {s' : AnimState} (h : startZoneFade k loaded s = some (b, s')) :
    s'.categories = s.categories := by
  obtain ⟨u, zs, ev, rfl⟩ := startZoneFade_fields h
  rfl

theorem startZoneFade_currentZoneIndex {k : ℕ} {loaded : String → Bool}
    {s : AnimState} {b : Bool} {s' : AnimState}
    (h : startZoneFade k loaded s = some (b, s')) :
    s'.currentZoneIndex = s.currentZoneIndex := by
  obtain ⟨u, zs, ev, rfl⟩ := startZoneFade_fields h
  rfl

theorem startZoneFade_imagesByColor {k : ℕ} {loaded : String → Bool}
    {s : AnimState} {b : Bool} {s' : AnimState}
    (h : startZoneFade k loaded s = some (b, s')) :
    s'.imagesByColor = s.imagesByColor := by
  obtain ⟨u, zs, ev, rfl⟩ := startZoneFade_fields h
  rfl

theorem completeZoneFade_categories {s s' : AnimState}
    (h : completeZoneFade s = some s') : s'.categories = s.categories := by
  obtain ⟨zs, rfl⟩ := completeZoneFade_fields h
  rfl

theorem completeZoneFade_currentZoneIndex {s s' : AnimState}
    (h : completeZoneFade s = some s') :
    s'.currentZoneIndex = s.currentZoneIndex := by
  obtain ⟨zs, rfl⟩ := completeZoneFade_fields h
  rfl

theorem completeZoneFade_imagesByColor {s s' : AnimState}
    (h : completeZoneFade s = some s') : s'.imagesByColor = s.imagesByColor := by
  obtain ⟨zs, rfl⟩ := completeZoneFade_fields h
  rfl

theorem completeZoneFade_usedImages {s s' : AnimState}
    (h : completeZoneFade s = some s') : s'.usedImages = s.usedImages := by
  obtain ⟨zs, rfl⟩ := completeZoneFade_fields h
  rfl

theorem imagesOf_congr {s t : AnimState} (h : s.imagesByColor = t.imagesByColor)
    (color : String) : imagesOf s color = imagesOf t color := by
  unfold imagesOf
  rw [h]

/-- `completeZoneFade` throws exactly when the active category or its
zone entry is missing. -/
theorem completeZoneFade_none {s : AnimState} (h : completeZoneFade s = none) :
    s.categories.get? s.currentZoneIndex = none ∨
    ∃ color, s.categories.get? s.currentZoneIndex = some color ∧
      lookupA s.zones color = none := by
  unfold completeZoneFade at h
  cases hc : s.categories.get? s.currentZoneIndex with
  | none => exact Or.inl rfl
  | some color =>
    rw [hc] at h
    simp only [] at h
    cases hz : lookupA s.zones color with
    | none => exact Or.inr ⟨color, rfl, hz⟩
    | some z =>
      rw [hz] at h
      simp only [] at h
      exact Option.noConfusion h

/-- `startZoneFade` throws only when the selection helper throws or the
active zone entry is missing after a successful pick. -/
theorem startZoneFade_none {k : ℕ} {loaded : String → Bool} {s : AnimState}
    (h : startZoneFade k loaded s = none) :
    ∃ color, s.categories.get? s.currentZoneIndex = some color ∧
      (getRandomImage k s color = none ∨
        ∃ src s1, getRandomImage k s color = some (some src, s1) ∧
          lookupA s1.zones color = none) := by
  unfold startZoneFade at h
  cases hc : s.categories.get? s.currentZoneIndex with
  | none =>
    rw [hc] at h
    exact Option.noConfusion h
  | some color =>
    rw [hc] at h
    simp only [] at h
    cases hg : getRandomImage k s color with
    | none => exact ⟨color, rfl, Or.inl hg⟩
    | some rs =>
      obtain ⟨r, s1⟩ := rs
      rw [hg] at h
      cases r with
      | none => exact Option.noConfusion h
      | some src =>
        simp only [] at h
        split at h
        · split at h
          · rename_i hz
            exact ⟨color, rfl, Or.inr ⟨src, s1, hg, hz⟩⟩
          · exact Option.noConfusion h
        · exact Option.noConfusion h

theorem startZoneFade_zones_keys {k : ℕ} {loaded : String → Bool} {s : AnimState}
    {b : Bool} {s' : AnimState} (h : startZoneFade k loaded s = some (b, s')) :
    s'.zones.map Prod.fst = s.zones.map Prod.fst := by
  rcases startZoneFade_zones h with hz | ⟨color, z, src, -, hlz, -, hz⟩ <;> rw [hz]
  exact setA_keys _ color _ (by unfold hasKey; rw [hlz]; rfl)

theorem startZoneFade_used_keys {k : ℕ} {loaded : String → Bool} {s : AnimState}
    {b : Bool} {s' : AnimState} (h : startZoneFade k loaded s = some (b, s'))
    (huk : s.usedImages.map Prod.fst = s.categories) :
    s'.usedImages.map Prod.fst = s.categories := by
  unfold startZoneFade at h
  cases hc : s.categories.get? s.currentZoneIndex with
  | none =>
    rw [hc] at h
    injection h with h
    injection h with h1 h2
    subst h2
    exact huk
  | some color =>
    rw [hc] at h
    simp only [] at h
    cases hg : getRandomImage k s color with
    | none =>
      rw [hg] at h
      exact Option.noConfusion h
    | some rs =>
      obtain ⟨r, s1⟩ := rs
      rw [hg] at h
      have hck : (lookupA s.usedImages color).isSome = true := by
        rw [lookupA_isSome_iff, huk]
        exact List.get?_mem hc
      have hkeys := getRandomImage_used_keys hg hck
      cases r with
      | none =>
        injection h with h
        injection h with h1 h2
        subst h2
        exact hkeys.trans huk
      | some src =>
        simp only [] at h
        split at h
        · split at h
          · exact Option.noConfusion h
          · rename_i z hz
            injection h with h
            injection h with h1 h2
            subst h2
            exact hkeys.trans huk
        · injection h with h
          injection h with h1 h2
          subst h2
          exact hkeys.trans huk

/-- The invariant only looks at the dictionaries, the cursor, the
category list, the image pool and the machine state, so it transports
along equality of those fields. -/
theorem inv_congr {s t : AnimState} (hinv : Inv s)
    (hz : t.zones = s.zones) (hu : t.usedImages = s.usedImages)
    (hc : t.categories = s.categories) (hi : t.currentZoneIndex = s.currentZoneIndex)
    (him : t.imagesByColor = s.imagesByColor) (hst : t.state = s.state) :
    Inv t := by
  refine ⟨?_, ?_, ?_, ?_, ?_⟩
  · rw [hz, hc]
    exact hinv.zones_keys
  · rw [hu, hc]
    exact hinv.used_keys
  · rw [hc, hi]
    exact hinv.idx_lt
  · rw [hz, hc, hi, hst]
    exact hinv.zone_clean
  · rw [hz]
    intro p hp hempty
    have hempty2 : imagesOf s p.1 = [] := by
      rw [← imagesOf_congr him p.1]
      exact hempty
    exact hinv.zone_empty p hp hempty2

theorem inv_initState (prm : Bool) : Inv (initState prm) := by
  refine ⟨rfl, rfl, ?_, ?_, ?_⟩
  · intro hne
    exact absurd rfl hne
  · intro p hp
    exact absurd hp (by simp [initState])
  · intro p hp
    exact absurd hp (by simp [initState])

theorem inv_reset {s : AnimState}
    (hz : s.zones.map Prod.fst = s.categories)
    (hu : s.usedImages.map Prod.fst = s.categories) : Inv (reset s) := by
  refine ⟨?_, ?_, ?_, ?_, ?_⟩
  · show (s.zones.map _).map Prod.fst = s.categories
    refine Eq.trans ?_ hz
    rw [List.map_map]
    apply List.map_congr_left
    intro p _
    by_cases hcp : p.1 ∈ s.categories <;> simp [Function.comp, hcp]
  · show (s.usedImages.map _).map Prod.fst = s.categories
    refine Eq.trans ?_ hu
    rw [List.map_map]
    apply List.map_congr_left
    intro p _
    by_cases hcp : p.1 ∈ s.categories <;> simp [Function.comp, hcp]
  · intro hne
    show 0 < s.categories.length
    exact List.length_pos.mpr hne
  · intro p hp hdirty
    exfalso
    obtain ⟨q, hq, rfl⟩ := List.mem_map.mp hp
    have hqc : q.1 ∈ s.categories := by
      rw [← hz]
      exact List.mem_map_of_mem Prod.fst hq
    rcases hdirty with hinc | hal
    · exact hinc (by simp [hqc])
    · exact hal (by simp [hqc])
  · intro p hp _
    obtain ⟨q, hq, rfl⟩ := List.mem_map.mp hp
    have hqc : q.1 ∈ s.categories := by
      rw [← hz]
      exact List.mem_map_of_mem Prod.fst hq
    simp [hqc]

theorem inv_setImages (imgs : List (String × List String)) (cats : List String)
    (s : AnimState) : Inv (setImages imgs cats s) := by
  apply inv_reset <;>
    · show (cats.map _).map Prod.fst = cats
      rw [List.map_map]
      exact (List.map_congr_left (fun a _ => rfl)).trans (List.map_id cats)

/-- Outside a `FADING` phase every zone is blank. -/
theorem allClean_of_not_fading {s : AnimState} (hinv : Inv s)
    (hst : s.state ≠ MachineState.FADING) :
    ∀ p ∈ s.zones, p.2.incoming = none ∧ p.2.alpha = 0 := by
  intro p hp
  by_cases hd : p.2.incoming ≠ none ∨ p.2.alpha ≠ 0
  · exact absurd (hinv.zone_clean p hp hd).2 hst
  · push_neg at hd
    exact hd

theorem inv_advance {s : AnimState} (hinv : Inv s)
    (hclean : ∀ p ∈ s.zones, p.2.incoming = none ∧ p.2.alpha = 0) :
    Inv (advanceToNextZone s) ∧
    ∀ p ∈ (advanceToNextZone s).zones, p.2.incoming = none ∧ p.2.alpha = 0 := by
  have hcA : ∀ p ∈ (advanceToNextZone s).zones,
      p.2.incoming = none ∧ p.2.alpha = 0 := by
    rw [advance_zones]
    exact hclean
  refine ⟨⟨?_, ?_, ?_, ?_, ?_⟩, hcA⟩
  · rw [advance_zones, advance_categories]
    exact hinv.zones_keys
  · rw [advance_usedImages, advance_categories]
    exact hinv.used_keys
  · rw [advance_categories]
    intro hne
    rw [advance_idx]
    split
    · show 0 < s.categories.length
      exact List.length_pos.mpr hne
    · rename_i hlt
      exact not_le.mp hlt
  · intro p hp hdirty
    exfalso
    obtain ⟨h1, h2⟩ := hcA p hp
    rcases hdirty with hd | hd
    · exact hd h1
    · exact hd h2
  · intro p hp hempty
    obtain ⟨h1, h2⟩ := hcA p hp
    rw [advance_zones] at hp
    have hempty2 : imagesOf s p.1 = [] := by
      rw [← imagesOf_congr (advance_imagesByColor s) p.1]
      exact hempty
    exact hinv.zone_empty p hp hempty2

theorem inv_fadeAlphaStep {s : AnimState} (e : ℚ) (hinv : Inv s) :
    Inv (fadeAlphaStep s e) := by
  refine ⟨?_, ?_, ?_, ?_, ?_⟩
  · rw [fadeAlphaStep_zones_keys, fadeAlphaStep_categories]
    exact hinv.zones_keys
  · rw [fadeAlphaStep_usedImages, fadeAlphaStep_categories]
    exact hinv.used_keys
  · rw [fadeAlphaStep_categories, fadeAlphaStep_currentZoneIndex]
    exact hinv.idx_lt
  · rw [fadeAlphaStep_categories, fadeAlphaStep_currentZoneIndex, fadeAlphaStep_state]
    rcases fadeAlphaStep_zones s e with hz | ⟨color, z, hc, hlz, hi, hz⟩ <;> rw [hz]
    · exact hinv.zone_clean
    · intro p hp hdirty
      have hzdirty : z.incoming ≠ none ∨ z.alpha ≠ 0 := by
        left
        intro hnone
        rw [hnone] at hi
        exact Bool.noConfusion hi
      have hact := hinv.zone_clean (color, z) (lookupA_mem hlz) hzdirty
      rcases mem_setA hp with rfl | ⟨hmem, hne2⟩
      · exact ⟨hc.symm, hact.2⟩
      · exact hinv.zone_clean p hmem hdirty
  · intro p hp hempty
    have hempty2 : imagesOf s p.1 = [] := by
      rw [← imagesOf_congr (fadeAlphaStep_imagesByColor s e) p.1]
      exact hempty
    rcases fadeAlphaStep_zones s e with hz | ⟨color, z, hc, hlz, hi, hz⟩ <;> rw [hz] at hp
    · exact hinv.zone_empty p hp hempty2
    · rcases mem_setA hp with heq | ⟨hmem, -⟩
      · exfalso
        subst heq
        have hzempty := hinv.zone_empty (color, z) (lookupA_mem hlz) hempty2
        have : z.incoming = none := by
          rw [show z = (⟨none, none, 0⟩ : Zone) from hzempty]
        rw [this] at hi
        exact Bool.noConfusion hi
      · exact hinv.zone_empty p hmem hempty2

theorem inv_completeZoneFade {s s' : AnimState} (hinv : Inv s)
    (h : completeZoneFade s = some s') :
    Inv s' ∧ ∀ p ∈ s'.zones, p.2.incoming = none ∧ p.2.alpha = 0 := by
  obtain ⟨color, z, hc, hlz, hs⟩ := completeZoneFade_zones h
  subst hs
  have hclean : ∀ p ∈ setA s.zones color (⟨z.incoming, none, 0⟩ : Zone),
      p.2.incoming = none ∧ p.2.alpha = 0 := by
    intro p hp
    rcases mem_setA hp with rfl | ⟨hmem, hne2⟩
    · exact ⟨rfl, rfl⟩
    · by_cases hdirty : p.2.incoming ≠ none ∨ p.2.alpha ≠ 0
      · exfalso
        have := (hinv.zone_clean p hmem hdirty).1
        rw [hc] at this
        injection this with this
        exact hne2 this
      · push_neg at hdirty
        exact hdirty
  refine ⟨⟨?_, ?_, ?_, ?_, ?_⟩, hclean⟩
  · show (setA s.zones color _).map Prod.fst = s.categories
    rw [setA_keys _ color _ (by unfold hasKey; rw [hlz]; rfl)]
    exact hinv.zones_keys
  · exact hinv.used_keys
  · exact hinv.idx_lt
  · intro p hp hdirty
    exfalso
    obtain ⟨h1, h2⟩ := hclean p hp
    rcases hdirty with hd | hd
    · exact hd h1
    · exact hd h2
  · intro p hp hempty
    rcases mem_setA hp with rfl | ⟨hmem, -⟩
    · have hzempty := hinv.zone_empty (color, z) (lookupA_mem hlz) hempty
      have : z.incoming = none := by
        rw [show z = (⟨none, none, 0⟩ : Zone) from hzempty]
      show (⟨z.incoming, none, 0⟩ : Zone) = ⟨none, none, 0⟩
      rw [this]
    · exact hinv.zone_empty p hmem hempty

theorem inv_startZoneFade {k : ℕ} {loaded : String → Bool} {s : AnimState}
    {b : Bool} {s' : AnimState} (hinv : Inv s)
    (h : startZoneFade k loaded s = some (b, s')) :
    s'.zones.map Prod.fst = s.categories ∧
    s'.usedImages.map Prod.fst = s.categories ∧
    (∀ p ∈ s'.zones, (p.2.incoming ≠ none ∨ p.2.alpha ≠ 0) →
      some p.1 = s.categories.get? s.currentZoneIndex) ∧
    (∀ p ∈ s'.zones, imagesOf s p.1 = [] → p.2 = ⟨none, none, 0⟩) := by
  refine ⟨(startZoneFade_zones_keys h).trans hinv.zones_keys,
    startZoneFade_used_keys h hinv.used_keys, ?_, ?_⟩
  · rcases startZoneFade_zones h with hz | ⟨color, z, src, hc, hlz, hne, hz⟩ <;> rw [hz]
    · intro p hp hdirty
      exact (hinv.zone_clean p hp hdirty).1
    · intro p hp hdirty
      rcases mem_setA hp with rfl | ⟨hmem, hne2⟩
      · exact hc.symm
      · have hact := (hinv.zone_clean p hmem hdirty).1
        exfalso
        rw [hc] at hact
        injection hact with hact
        exact hne2 hact
  · rcases startZoneFade_zones h with hz | ⟨color, z, src, hc, hlz, hne, hz⟩ <;> rw [hz]
    · exact hinv.zone_empty
    · intro p hp hempty
      rcases mem_setA hp with rfl | ⟨hmem, -⟩
      · exact absurd hempty hne
      · exact hinv.zone_empty p hmem hempty

/-- The combined effect of the `HOLDING`-threshold step: advance the
cursor, then start the next zone fade. -/
theorem inv_holdingStep {k : ℕ} {loaded : String → Bool} {s : AnimState}
    {b : Bool} {s' : AnimState} (hinv : Inv s)
    (hclean : ∀ p ∈ s.zones, p.2.incoming = none ∧ p.2.alpha = 0)
    (heq : startZoneFade k loaded (advanceToNextZone s) = some (b, s')) :
    s'.zones.map Prod.fst = s.categories ∧
    s'.usedImages.map Prod.fst = s.categories ∧
    s'.categories = s.categories ∧
    (s.categories ≠ [] → s'.currentZoneIndex < s.categories.length) ∧
    (∀ p ∈ s'.zones, (p.2.incoming ≠ none ∨ p.2.alpha ≠ 0) →
      some p.1 = s'.categories.get? s'.currentZoneIndex) ∧
    (∀ p ∈ s'.zones, imagesOf s p.1 = [] → p.2 = ⟨none, none, 0⟩) := by
  obtain ⟨hA, hcA⟩ := inv_advance hinv hclean
  obtain ⟨hzk, huk, hzc, hze⟩ := inv_startZoneFade hA heq
  have hcats : s'.categories = s.categories :=
    (startZoneFade_categories heq).trans (advance_categories s)
  refine ⟨?_, ?_, hcats, ?_, ?_, ?_⟩
  · rw [hzk, advance_categories]
  · rw [huk, advance_categories]
  · intro hne
    rw [startZoneFade_currentZoneIndex heq]
    have := hA.idx_lt (by rw [advance_categories]; exact hne)
    rw [advance_categories] at this
    exact this
  · intro p hp hdirty
    rw [hcats, startZoneFade_currentZoneIndex heq, ← advance_categories s]
    exact hzc p hp hdirty
  · intro p hp hempty
    apply hze p hp
    rw [imagesOf_congr (advance_imagesByColor s) p.1]
    exact hempty

theorem inv_start {s s' : AnimState} {now : ℚ} {rafId k : ℕ}
    {loaded : String → Bool}
    (hinv : Inv s) (h : start now rafId k loaded s = some s') : Inv s' := by
  unfold start at h
  split at h
  · injection h with h
    subst h
    exact hinv
  · simp only [] at h
    split at h
    · exact Option.noConfusion h
    · rename_i b s2 heq
      injection h with h
      subst h
      obtain ⟨hzk, huk, hzc, hze⟩ :=
        inv_startZoneFade (by exact inv_congr hinv rfl rfl rfl rfl rfl rfl) heq
      have hcats := startZoneFade_categories heq
      have hidx := startZoneFade_currentZoneIndex heq
      refine ⟨?_, ?_, ?_, ?_, ?_⟩
      · show s2.zones.map Prod.fst = s2.categories
        rw [hcats]
        exact hzk
      · show s2.usedImages.map Prod.fst = s2.categories
        rw [hcats]
        exact huk
      · show s2.categories ≠ [] → s2.currentZoneIndex < s2.categories.length
        rw [hcats, hidx]
        exact hinv.idx_lt
      · intro p hp hdirty
        refine ⟨?_, rfl⟩
        show some p.1 = s2.categories.get? s2.currentZoneIndex
        rw [hcats, hidx]
        exact hzc p hp hdirty
      · intro p hp hempty
        apply hze p hp
        have hempty2 : imagesOf s2 p.1 = [] := hempty
        have himg := startZoneFade_imagesByColor heq
        rw [imagesOf_congr himg p.1] at hempty2
        exact hempty2

theorem inv_update {k : ℕ} {loaded : String → Bool} {s s' : AnimState} {dt : ℚ}
    (hinv : Inv s) (h : update k loaded s dt = some s') : Inv s' := by
  unfold update at h
  cases hto : s.transitioningOut <;> rw [hto] at h
  case true =>
    simp only [if_true] at h
    split at h <;>
      · injection h with h
        subst h
        exact inv_congr hinv rfl rfl rfl rfl rfl rfl
  case false =>
    simp only [Bool.false_eq_true, if_false] at h
    obtain ⟨a, ha⟩ := transitionFadeIn_fields s dt
    rw [ha] at h
    cases hstate : s.state <;> simp only [hstate] at h
    · injection h with h
      subst h
      exact inv_congr hinv rfl rfl rfl rfl rfl (by first | exact rfl | exact hstate.symm)
    · split at h
      · split at h
        · exact Option.noConfusion h
        · rename_i s4 heq
          injection h with h
          subst h
          obtain ⟨hinv4, hclean4⟩ := inv_completeZoneFade (by
            exact inv_fadeAlphaStep _ (inv_congr hinv rfl rfl rfl rfl rfl
              (by first | exact rfl | exact hstate.symm))) heq
          refine ⟨hinv4.zones_keys, hinv4.used_keys, hinv4.idx_lt, ?_, ?_⟩
          · intro p hp hdirty
            exfalso
            obtain ⟨h1, h2⟩ := hclean4 p hp
            rcases hdirty with hd | hd
            · exact hd h1
            · exact hd h2
          · intro p hp hempty
            exact hinv4.zone_empty p hp hempty
      · injection h with h
        subst h
        exact inv_fadeAlphaStep _ (inv_congr hinv rfl rfl rfl rfl rfl (by first | exact rfl | exact hstate.symm))
    · split at h
      · split at h
        · exact Option.noConfusion h
        · rename_i b s4 heq
          injection h with h
          subst h
          obtain ⟨hzk, huk, hcats, hidx, hzc, hze⟩ := inv_holdingStep (by
              exact inv_congr hinv rfl rfl rfl rfl rfl
                (by first | exact rfl | exact hstate.symm)) (by
              exact allClean_of_not_fading
                (inv_congr hinv rfl rfl rfl rfl rfl
                  (by first | exact rfl | exact hstate.symm))
                (fun hcc => MachineState.noConfusion hcc))
            heq
          refine ⟨?_, ?_, ?_, ?_, ?_⟩
          · show s4.zones.map Prod.fst = s4.categories
            rw [hcats]
            exact hzk
          · show s4.usedImages.map Prod.fst = s4.categories
            rw [hcats]
            exact huk
          · show s4.categories ≠ [] → s4.currentZoneIndex < s4.categories.length
            rw [hcats]
            exact hidx
          · intro p hp hdirty
            exact ⟨hzc p hp hdirty, rfl⟩
          · intro p hp hempty
            apply hze p hp
            have hempty2 : imagesOf s4 p.1 = [] := hempty
            have himg := startZoneFade_imagesByColor heq
            rw [imagesOf_congr himg p.1] at hempty2
            rw [imagesOf_congr (advance_imagesByColor _) p.1] at hempty2
            exact hempty2
      · injection h with h
        subst h
        exact inv_congr hinv rfl rfl rfl rfl rfl (by first | exact rfl | exact hstate.symm)

/-- Every reachable engine state satisfies the structural invariant. -/
theorem reachable_inv {s : AnimState} (h : Reachable s) : Inv s := by
  induction h with
  | init prm => exact inv_initState prm
  | opSetImages imgs cats _ _ => exact inv_setImages imgs cats _
  | opReset _ ih => exact inv_reset ih.zones_keys ih.used_keys
  | opStart now rafId k loaded _ heq ih => exact inv_start ih heq
  | opStop _ ih => exact inv_congr ih rfl rfl rfl rfl rfl rfl
  | opPause _ ih =>
    unfold pause
    split
    · exact ih
    · exact inv_congr ih rfl rfl rfl rfl rfl rfl
  | opResume now rafId _ ih =>
    unfold resume
    split
    · exact ih
    · exact inv_congr ih rfl rfl rfl rfl rfl rfl
  | opBeginTransition _ ih => exact inv_congr ih rfl rfl rfl rfl rfl rfl
  | opSetFrame f _ ih => exact inv_congr ih rfl rfl rfl rfl rfl rfl
  | opSetBackground b _ ih => exact inv_congr ih rfl rfl rfl rfl rfl rfl
  | opUpdate k loaded dt _ _ heq ih => exact inv_update ih heq
  | opSetDurations f hd _ _ _ ih => exact inv_congr ih rfl rfl rfl rfl rfl rfl
  | opSetReducedMotion b _ ih => exact inv_congr ih rfl rfl rfl rfl rfl rfl

theorem lookupA_eq_none_iff {β : Type} (l : List (String × β)) (key : String) :
    lookupA l key = none ↔ key ∉ l.map Prod.fst := by
  rw [← lookupA_isSome_iff]
  cases lookupA l key <;> simp

/-- On every invariant-satisfying state with a non-empty category list,
`update` returns a state — the JS code cannot reach a `TypeError`. -/
theorem update_isSome {k : ℕ} {loaded : String → Bool} {s : AnimState} {dt : ℚ}
    (hinv : Inv s) (hne : s.categories ≠ []) :
    (update k loaded s dt).isSome = true := by
  cases hu : update k loaded s dt with
  | some t => rfl
  | none =>
    exfalso
    unfold update at hu
    cases hto : s.transitioningOut <;> rw [hto] at hu
    case true =>
      simp only [if_true] at hu
      split at hu <;> exact Option.noConfusion hu
    case false =>
      simp only [Bool.false_eq_true, if_false] at hu
      obtain ⟨a, ha⟩ := transitionFadeIn_fields s dt
      rw [ha] at hu
      cases hstate : s.state <;> simp only [hstate] at hu
      · exact Option.noConfusion hu
      · split at hu
        · split at hu
          · rename_i heq
            rcases completeZoneFade_none heq with hcn | ⟨color, hc, hz⟩
            · rw [fadeAlphaStep_categories, fadeAlphaStep_currentZoneIndex] at hcn
              have hcn2 : s.categories.get? s.currentZoneIndex = none := hcn
              rw [List.get?_eq_none] at hcn2
              exact absurd (hinv.idx_lt hne) (not_lt.mpr hcn2)
            · rw [fadeAlphaStep_categories, fadeAlphaStep_currentZoneIndex] at hc
              have hc2 : s.categories.get? s.currentZoneIndex = some color := hc
              have hcm : color ∈ s.categories := List.get?_mem hc2
              rw [lookupA_eq_none_iff, fadeAlphaStep_zones_keys] at hz
              have hz2 : color ∉ s.zones.map Prod.fst := hz
              rw [hinv.zones_keys] at hz2
              exact hz2 hcm
          · exact Option.noConfusion hu
        · exact Option.noConfusion hu
      · split at hu
        · split at hu
          · rename_i heq
            obtain ⟨color, hc, hrest⟩ := startZoneFade_none heq
            have hcm : color ∈ s.categories := by
              have hm := List.get?_mem hc
              rw [advance_categories] at hm
              exact hm
            rcases hrest with hgn | ⟨src, s1, hg, hz⟩
            · have hl := getRandomImage_none hgn
              rw [lookupA_eq_none_iff, advance_usedImages] at hl
              have hl2 : color ∉ s.usedImages.map Prod.fst := hl
              rw [hinv.used_keys] at hl2
              exact hl2 hcm
            · have hz1 := getRandomImage_zones hg
              rw [hz1, advance_zones] at hz
              rw [lookupA_eq_none_iff] at hz
              have hz2 : color ∉ s.zones.map Prod.fst := hz
              rw [hinv.zones_keys] at hz2
              exact hz2 hcm
          · exact Option.noConfusion hu
        · exact Option.noConfusion hu

/-- C8 (amended): in every reachable state whose category list is
non-empty, `update()` never throws, for any delta, random draw or loader
(`render()` is total by construction — every zone and handle access is
guarded); and a category whose image list is empty keeps a fully blank
zone (`current` and `incoming` both absent), so its layer never draws
while the other categories animate; the scheduler still walks such a
category through its `FADING`/`HOLDING` slot (the state machine
transitions of `c2_state_machine` and the cursor advance of `c3_cursor`
do not require an incoming image). With an empty category list,
however, `update()` does throw once the fade timer elapses — see the
counterexample. -/
theorem c8_no_throw (s : AnimState) (h : Reachable s)
    (hne : s.categories ≠ []) (k : ℕ) (loaded : String → Bool) (dt : ℚ) :
    (update k loaded s dt).isSome = true ∧
    (∀ p ∈ s.zones, imagesOf s p.1 = [] →
      p.2.current = none ∧ p.2.incoming = none) := by
  have hinv := reachable_inv h
  refine ⟨update_isSome hinv hne, ?_⟩
  intro p hp hempty
  have hz := hinv.zone_empty p hp hempty
  exact ⟨by rw [hz], by rw [hz]⟩

/-- C8 witness: `c8_no_throw` at a reachable two-category state where
category "red" has no images: a full fade tick succeeds and the empty
category's zone is blank. -/
theorem c8_no_throw_witness :
    (update 0 (fun _ => true)
        (setImages [("red", []), ("blue", ["b"])] ["red", "blue"]
          (initState false)) (17/10)).isSome = true ∧
    (⟨none, none, 0⟩ : Zone).current = none ∧
    (⟨none, none, 0⟩ : Zone).incoming = none := by
  have h := c8_no_throw
    (setImages [("red", []), ("blue", ["b"])] ["red", "blue"] (initState false))
    (Reachable.opSetImages _ _ (Reachable.init false))
    (by decide) 0 (fun _ => true) (17/10)
  have h2 := h.2 ("red", ⟨none, none, 0⟩) (by decide) (by decide)
  exact ⟨h.1, h2.1, h2.2⟩

/-- C8 counterexample to the claim as stated: with an empty category
list (no `setImages`, as in the constructor state), `start()` succeeds
and enters `FADING`, but the first tick whose accumulated time reaches
the fade duration throws — `completeZoneFade` reads
`this.zones[undefined].current` — so `update()` does not complete. -/
theorem c8_counterexample :
    (start 0 0 0 (fun _ => true) (initState false)).isSome = true ∧
    (start 0 0 0 (fun _ => true) (initState false)).bind
      (fun s1 => update 0 (fun _ => true) s1 (17/10)) = none := by
  exact ⟨by decide, by decide⟩

/-- C10: in every state reachable through the public operations, a zone
with a non-null incoming image is the active zone (so at most one such
zone exists at a time — dictionary keys are unique), and every
non-active zone has a null incoming image and alpha 0. -/
theorem c10_active_zone (s : AnimState) (h : Reachable s) :
    ∀ p ∈ s.zones,
      (p.2.incoming ≠ none → some p.1 = s.categories.get? s.currentZoneIndex) ∧
      (some p.1 ≠ s.categories.get? s.currentZoneIndex →
        p.2.incoming = none ∧ p.2.alpha = 0) := by
  have hinv := reachable_inv h
  intro p hp
  constructor
  · intro hi
    exact (hinv.zone_clean p hp (Or.inl hi)).1
  · intro hne
    constructor
    · by_contra hi
      exact hne (hinv.zone_clean p hp (Or.inl hi)).1
    · by_contra hal
      exact hne (hinv.zone_clean p hp (Or.inr hal)).1

/-- C10 witness: in the reachable state just after configuring two
categories, the non-active zone ("blue", cursor at index 0) is blank. -/
theorem c10_active_zone_witness :
    (⟨none, none, 0⟩ : Zone).incoming = none ∧ (⟨none, none, 0⟩ : Zone).alpha = 0 :=
  (c10_active_zone
    (setImages [("red", ["a"]), ("blue", ["b"])] ["red", "blue"] (initState false))
    (Reachable.opSetImages _ _ (Reachable.init false))
    ("blue", ⟨none, none, 0⟩) (by decide)).2 (by decide)

end Art8
